import Mathlib

/-!
Shallow embedding of the debt payoff projection engine of the simplefi
repository: `CreditLine` / `Statement` from src/debt/models.py, the
`DebtSummaryTable` engine from src/debt/utils.py, and the historical
minimum-payment variant from src/simplefi/debt/models.py.

Modelling conventions:
* Python `Decimal` amounts are modelled as exact rationals `ℚ`.
* Django querysets are modelled as in-memory lists; `order_by` maxima /
  minima become folds over the list; `statement_set.get(year=, month=)`
  becomes `List.find?` (per-account statements are unique on
  (year, month) by the DB constraint `unique_together`).
* Python dicts keyed by account name are modelled as association lists
  built in insertion order; account names are unique per user (DB
  constraint `unique_together ("user", "name")`), so theorems about the
  engine carry a `Nodup` hypothesis on the name list where it matters.
* The `while` loop of `DebtSummaryTable.calc_rows` is modelled with an
  explicit fuel argument; `run` supplies fuel that provably suffices
  (see the termination lemmas), and records whether the loop exited via
  its own `break_loop` condition in the `finished` field.
-/

/-- One `Statement` row (src/debt/models.py, class `Statement`). -/
structure Stmt where
  year : ℕ
  month : ℕ
  balance : ℚ
deriving DecidableEq

/-- One `CreditLine` account (src/debt/models.py, class `CreditLine`),
together with its statement set. -/
structure CreditLine where
  name : String
  statement_date : ℕ
  interest_rate : ℚ
  credit_line : ℚ
  min_pay_pct : ℚ
  min_pay_dlr : ℚ
  priority : ℕ
  statements : List Stmt
deriving DecidableEq

/-- `(year, month)` on-or-before, i.e. the order used by Django's
`order_by("year", "month")`. -/
def ymLe (a b : ℕ × ℕ) : Prop :=
  a.1 < b.1 ∨ (a.1 = b.1 ∧ a.2 ≤ b.2)

instance (a b : ℕ × ℕ) : Decidable (ymLe a b) := by
  unfold ymLe; infer_instance

/-- The later of two statements in the `order_by("year", "month")` order. -/
def laterOf (acc t : Stmt) : Stmt :=
  if ymLe (acc.year, acc.month) (t.year, t.month) then t else acc

/-- The earlier of two statements in the `order_by("year", "month")` order. -/
def earlierOf (acc t : Stmt) : Stmt :=
  if ymLe (acc.year, acc.month) (t.year, t.month) then acc else t

/-- `statement_set.order_by("year", "month").last()`: the statement with the
lexicographically greatest `(year, month)`. -/
def latestStatement : List Stmt → Option Stmt
  | [] => none
  | s :: rest => some (rest.foldl laterOf s)

/-- `statement_set.order_by("year", "month").first()`: the statement with the
lexicographically least `(year, month)`. -/
def earliestStatement : List Stmt → Option Stmt
  | [] => none
  | s :: rest => some (rest.foldl earlierOf s)

/-- `CreditLine.balance`: balance of the latest statement, or the credit
line amount when the account has no statements. -/
def CreditLine.balance (cl : CreditLine) : ℚ :=
  match latestStatement cl.statements with
  | some s => s.balance
  | none => cl.credit_line

/-- `CreditLine.latest_statement_date` as a (year, month, day) triple; the
day is the account's `statement_date`. -/
def CreditLine.latest_statement_date (cl : CreditLine) : Option (ℕ × ℕ × ℕ) :=
  (latestStatement cl.statements).map (fun s => (s.year, s.month, cl.statement_date))

/-- `CreditLine.earliest_statement_date` as a (year, month, day) triple. -/
def CreditLine.earliest_statement_date (cl : CreditLine) : Option (ℕ × ℕ × ℕ) :=
  (earliestStatement cl.statements).map (fun s => (s.year, s.month, cl.statement_date))

/-- `CreditLine.min_pay` (src/debt/models.py): the greater of the dollar
floor and the percentage of the balance, capped at the balance itself. -/
def CreditLine.min_pay (cl : CreditLine) (bal : ℚ) : ℚ :=
  min (max cl.min_pay_dlr (cl.min_pay_pct / 100 * bal)) bal

/-- The historical `CreditLine.min_pay` (src/simplefi/debt/models.py):
no upper bound at the balance. -/
def CreditLine.min_pay_legacy (cl : CreditLine) (bal : ℚ) : ℚ :=
  max cl.min_pay_dlr (cl.min_pay_pct / 100 * bal)

/-- `CreditLine.forecast_next`: one month of simple interest, minus the
minimum payment, floored at zero. -/
def CreditLine.forecast_next (cl : CreditLine) (bal : ℚ) : ℚ :=
  max (bal * (1 + cl.interest_rate / 100 / 12) - cl.min_pay bal) 0

/-- `statement_set.get(year=year, month=month)` (unique per the DB
constraint, so the first match is the match). -/
def findStatement (stmts : List Stmt) (year month : ℕ) : Option Stmt :=
  stmts.find? (fun s => s.year == year && s.month == month)

/-- `CreditLine.calc_balance`. The caller passes the cached latest
statement (year, month) and cached latest balance, exactly as
`DebtSummaryTable.calc_next_row` does. -/
def CreditLine.calc_balance (cl : CreditLine) (month year : ℕ) (prev_mo_bal : ℚ)
    (latest_stmnt : ℕ × ℕ) (latest_bal : ℚ) : ℚ × Option ℚ :=
  if year < latest_stmnt.1 ∨ (month ≤ latest_stmnt.2 ∧ year = latest_stmnt.1) then
    match findStatement cl.statements year month with
    | some s => (s.balance, none)
    | none => (latest_bal, none)
  else
    (cl.forecast_next prev_mo_bal, some (cl.min_pay prev_mo_bal))

/-- Lookup in an association list keyed by account name (Python dict
access `d[name]`). -/
def alookup {α : Type} : List (String × α) → String → Option α
  | [], _ => none
  | (k0, v) :: rest, k => if k0 = k then some v else alookup rest k

/-- Python dict value update `d[name] = v` for a key already present:
value replaced in place, order and other entries unchanged. -/
def updateCell {α : Type} : List (String × α) → String → α → List (String × α)
  | [], _, _ => []
  | (k, x) :: rest, n, v =>
      if k = n then (k, v) :: rest else (k, x) :: updateCell rest n v

/-- One output row of the engine: per-account balance cells (in account
priority order), the "Total" entry, and the month label. -/
structure Row where
  cells : List (String × ℚ)
  total : ℚ
  label : String
deriving DecidableEq

/-- `calendar.month_abbr[m]`. -/
def monthAbbr (m : ℕ) : String :=
  ["", "Jan", "Feb", "Mar", "Apr", "May", "Jun",
   "Jul", "Aug", "Sep", "Oct", "Nov", "Dec"].getD m ""

/-- `DebtSummaryTable.MAX_ROWS`. -/
def MAX_ROWS : ℕ := 120

/-- The per-run constant data of `DebtSummaryTable.__init__`: the filtered
and priority-ordered accounts, the cached name list, latest statement
months and balances, the absolute debt budget, "now", and the mode. -/
structure Config where
  accs : List CreditLine
  names : List String
  latest_stmnts : List (String × ℕ × ℕ)
  balances : List (String × ℚ)
  debt_budget : ℚ
  nowY : ℕ
  nowM : ℕ
  do_forecasting : Bool

/-- The mutable loop state of `DebtSummaryTable.calc_rows`. -/
structure LoopState where
  rows : List Row
  month : ℕ
  year : ℕ
deriving DecidableEq

/-- `self.rows[-1][a.name] if self.rows else self.balances[a.name]`.
The `getD 0` default is never exercised for engine-generated states
(every row holds a cell for every account name). -/
def prevBalFor (cfg : Config) (st : LoopState) (a : CreditLine) : ℚ :=
  match st.rows.getLast? with
  | some r => (alookup r.cells a.name).getD 0
  | none => (alookup cfg.balances a.name).getD 0

/-- The `a.calc_balance(...)` call of `calc_next_row`, with the cached
latest statement month and balance fetched from the config. The `getD`
defaults are never exercised: every account in `cfg.accs` has statements
and an entry in both caches. -/
def calcBalFor (cfg : Config) (st : LoopState) (a : CreditLine) : ℚ × Option ℚ :=
  a.calc_balance st.month st.year (prevBalFor cfg st a)
    ((alookup cfg.latest_stmnts a.name).getD (0, 0))
    ((alookup cfg.balances a.name).getD 0)

/-- One iteration of the first loop of `calc_next_row`: append the
account's balance cell, and its minimum payment when one was forecast. -/
def rowStep (cfg : Config) (st : LoopState)
    (acc : List (String × ℚ) × List (String × ℚ)) (a : CreditLine) :
    List (String × ℚ) × List (String × ℚ) :=
  (acc.1 ++ [(a.name, (calcBalFor cfg st a).1)],
   match (calcBalFor cfg st a).2 with
   | some p => acc.2 ++ [(a.name, p)]
   | none => acc.2)

/-- The first loop of `calc_next_row`: builds the row's balance cells and
the dict of forecast minimum payments in one pass over the accounts. -/
def rowPass (cfg : Config) (st : LoopState) :
    List (String × ℚ) × List (String × ℚ) :=
  cfg.accs.foldl (rowStep cfg st) ([], [])

/-- `DebtSummaryTable.after_this_month`. -/
def after_this_month (cfg : Config) (st : LoopState) : Bool :=
  decide (st.year > cfg.nowY) ||
    (decide (st.month > cfg.nowM) && decide (st.year = cfg.nowY))

/-- The budget-spending walk of `calc_next_row`: for each name in priority
order, either absorb the whole remaining budget and stop, or zero the
cell and carry the remainder to the next account. -/
def waterfall (budget : ℚ) : List String → List (String × ℚ) → List (String × ℚ)
  | [], cells => cells
  | n :: rest, cells =>
      if (alookup cells n).getD 0 ≥ budget then
        updateCell cells n ((alookup cells n).getD 0 - budget)
      else
        waterfall (budget - (alookup cells n).getD 0) rest (updateCell cells n 0)

/-- `DebtSummaryTable.calc_next_row`, producing the appended row. -/
def calc_next_row (cfg : Config) (st : LoopState) : Row :=
  let p := rowPass cfg st
  let cells := p.1
  let min_pay := p.2
  let cells :=
    if after_this_month cfg st && decide (min_pay.length = cfg.names.length) then
      let budget := cfg.debt_budget - (min_pay.map Prod.snd).sum
      if budget > 0 then waterfall budget cfg.names cells else cells
    else cells
  { cells := cells
    total := (cells.map Prod.snd).sum
    label := monthAbbr st.month ++ " " ++ toString st.year }

/-- `DebtSummaryTable.increment`. -/
def increment (st : LoopState) : LoopState :=
  if st.month = 12 then { st with month := 1, year := st.year + 1 }
  else { st with month := st.month + 1 }

/-- `DebtSummaryTable.break_loop`. -/
def break_loop (cfg : Config) (st : LoopState) : Bool :=
  if cfg.do_forecasting then
    match st.rows.getLast? with
    | none => false
    | some r => decide (r.total = 0) || decide (st.rows.length ≥ MAX_ROWS)
  else after_this_month cfg st

/-- `DebtSummaryTable.calc_rows`, with explicit fuel standing in for the
`while` loop; `run` passes provably sufficient fuel. -/
def calc_rows (cfg : Config) : ℕ → LoopState → LoopState
  | 0, st => st
  | fuel + 1, st =>
      if break_loop cfg st then st
      else calc_rows cfg fuel (increment { st with rows := st.rows ++ [calc_next_row cfg st] })

/-- Everything `DebtSummaryTable.__init__` receives: the user's credit
lines in queryset order, the debt `Budget` record's value when such a
record exists, today's (year, month), and the forecasting flag. -/
structure EngineInput where
  accounts : List CreditLine
  budget : Option ℚ
  nowY : ℕ
  nowM : ℕ
  do_forecasting : Bool

/-- Stable insertion of an account into a priority-sorted list: placed
before the first strictly-later entry, before later entries of equal
priority (preserving queryset order among ties). -/
def orderInsert (a : CreditLine) : List CreditLine → List CreditLine
  | [] => [a]
  | b :: rest =>
      if a.priority ≤ b.priority then a :: b :: rest else b :: orderInsert a rest

/-- Stable sort by the `priority` field, modelling `order_by("priority")`
(ties keep their queryset order, which the DB leaves unspecified). -/
def orderByPriority : List CreditLine → List CreditLine
  | [] => []
  | a :: rest => orderInsert a (orderByPriority rest)

/-- `CreditLine.objects.filter(credit_line__gt=0).order_by("priority")`. -/
def sortedAccounts (accounts : List CreditLine) : List CreditLine :=
  orderByPriority (accounts.filter (fun a => decide (0 < a.credit_line)))

/-- `[cl for cl in qs if cl.statement_set.exists()]`. -/
def filteredAccounts (accounts : List CreditLine) : List CreditLine :=
  (sortedAccounts accounts).filter (fun a => !a.statements.isEmpty)

/-- Lexicographic strict order on (year, month, day) triples, i.e.
`datetime.date` comparison. -/
def dateLt (a b : ℕ × ℕ × ℕ) : Prop :=
  a.1 < b.1 ∨ (a.1 = b.1 ∧ (a.2.1 < b.2.1 ∨ (a.2.1 = b.2.1 ∧ a.2.2 < b.2.2)))

instance (a b : ℕ × ℕ × ℕ) : Decidable (dateLt a b) := by
  unfold dateLt; infer_instance

/-- One comparison step of Python `min` over dates. -/
def minDateStep (acc x : ℕ × ℕ × ℕ) : ℕ × ℕ × ℕ :=
  if dateLt x acc then x else acc

/-- Python `min` over a list of dates: the first minimum. -/
def minDate : List (ℕ × ℕ × ℕ) → Option (ℕ × ℕ × ℕ)
  | [] => none
  | d :: rest => some (rest.foldl minDateStep d)

/-- The earliest statement dates collected by `set_starting_month`. -/
def startDates (accs : List CreditLine) : List (ℕ × ℕ × ℕ) :=
  accs.filterMap CreditLine.earliest_statement_date

/-- The `Config` assembled by `DebtSummaryTable.__init__`. -/
def mkConfig (inp : EngineInput) : Config :=
  let accs := filteredAccounts inp.accounts
  { accs := accs
    names := accs.map CreditLine.name
    latest_stmnts := accs.map (fun a =>
      (a.name, ((latestStatement a.statements).map (fun s => (s.year, s.month))).getD (0, 0)))
    balances := accs.map (fun a => (a.name, a.balance))
    debt_budget := match inp.budget with | some v => |v| | none => 0
    nowY := inp.nowY
    nowM := inp.nowM
    do_forecasting := inp.do_forecasting }

/-- The warning raised while caching the debt budget: present exactly when
no debt `Budget` record exists (`get_debt_budget` returned `None`). -/
def budgetWarnings (inp : EngineInput) : List String :=
  match inp.budget with
  | some _ => []
  | none => ["No debt budget specified"]

/-- What the engine hands back: the rows, the accumulated warnings, the
final loop month/year, and whether the loop exited via `break_loop`
(rather than by exhausting the modelling fuel). -/
structure EngineResult where
  rows : List Row
  warnings : List String
  month : ℕ
  year : ℕ
  finished : Bool

/-- Fuel that provably suffices for `calc_rows` (see the termination
lemmas): in historical mode the loop runs at most `12 * nowY + nowM + 1`
months, in forecasting mode at most `MAX_ROWS` further rows. -/
def fuelFor (inp : EngineInput) : ℕ :=
  12 * inp.nowY + inp.nowM + 1 + MAX_ROWS + 1

/-- The warning raised by `set_starting_month` when no account contributed
an earliest statement date. -/
def startWarnings (inp : EngineInput) : List String :=
  match minDate (startDates (mkConfig inp).accs) with
  | none => ["No statement data for debt summary table"]
  | some _ => []

/-- The loop state entering `calc_rows`: no rows yet, and the month/year
set by `set_starting_month` (the overall earliest statement date, or
today's month when there is none). -/
def startState (inp : EngineInput) : LoopState :=
  match minDate (startDates (mkConfig inp).accs) with
  | none => ⟨[], inp.nowM, inp.nowY⟩
  | some d => ⟨[], d.2.1, d.1⟩

/-- The whole `DebtSummaryTable(request, do_forecasting)` computation:
filtering, caching, warnings, `set_starting_month`, and the row loop. -/
def run (inp : EngineInput) : EngineResult :=
  let cfg := mkConfig inp
  let final := calc_rows cfg (fuelFor inp) (startState inp)
  { rows := final.rows
    warnings := budgetWarnings inp ++ startWarnings inp
    month := final.month
    year := final.year
    finished := break_loop cfg final }

/-- The `available` budget of a simulated month: the absolute debt budget
minus the sum of the month's forecast minimum payments. -/
def availableBudget (cfg : Config) (st : LoopState) : ℚ :=
  cfg.debt_budget - ((rowPass cfg st).2.map Prod.snd).sum

/-- The spec's "on-or-before" comparison of (year, month) pairs:
lexicographic on year first, then month. -/
def ymLexLe (y m ly lm : ℕ) : Prop :=
  y < ly ∨ (y = ly ∧ m ≤ lm)

instance (y m ly lm : ℕ) : Decidable (ymLexLe y m ly lm) := by
  unfold ymLexLe; infer_instance

/-- Scenario account A: priority 1, balance 100, zero rates. -/
def accA : CreditLine :=
  { name := "A", statement_date := 1, interest_rate := 0, credit_line := 200,
    min_pay_pct := 0, min_pay_dlr := 0, priority := 1, statements := [⟨2020, 1, 100⟩] }

/-- Scenario account B: priority 2, balance 50, zero rates. -/
def accB : CreditLine :=
  { name := "B", statement_date := 1, interest_rate := 0, credit_line := 200,
    min_pay_pct := 0, min_pay_dlr := 0, priority := 2, statements := [⟨2020, 1, 50⟩] }

/-- The C2 scenario: accounts A and B, debt budget 120, now = Jan 2020,
forecasting on. -/
def inpC2 : EngineInput := ⟨[accA, accB], some 120, 2020, 1, true⟩

/-- The C3 scenario account: one statement (Jan 2020, balance 100) and a
minimum payment floor of 10. -/
def accD : CreditLine :=
  { name := "A", statement_date := 1, interest_rate := 0, credit_line := 200,
    min_pay_pct := 0, min_pay_dlr := 10, priority := 1, statements := [⟨2020, 1, 100⟩] }

/-- The C3 scenario: budget 50, now = Mar 2020, historical mode, so the
simulated Feb 2020 is a forecast month lying before now. -/
def inpC3 : EngineInput := ⟨[accD], some 50, 2020, 3, false⟩

/-- The C4 counterexample account: a single statement in Jan 2010. -/
def accE : CreditLine :=
  { name := "A", statement_date := 1, interest_rate := 0, credit_line := 200,
    min_pay_pct := 0, min_pay_dlr := 0, priority := 1, statements := [⟨2010, 1, 0⟩] }

/-- The C4 counterexample input: statements start Jan 2010, now is
Jan 2021, historical (non-forecasting) mode. -/
def inpC4 : EngineInput := ⟨[accE], some 0, 2021, 1, false⟩

/-- An account with a positive credit line but no statements. -/
def accF : CreditLine :=
  { name := "A", statement_date := 1, interest_rate := 0, credit_line := 100,
    min_pay_pct := 0, min_pay_dlr := 0, priority := 1, statements := [] }

/-- The C5 scenario: one statement-less account, a budget present, now =
Jun 2020, historical mode. -/
def inpC5 : EngineInput := ⟨[accF], some 5, 2020, 6, false⟩

/-- The C8 scenario: a present debt budget record with value 0,
statement history present, forecasting on. -/
def inpC8 : EngineInput := ⟨[accD], some 0, 2020, 3, true⟩

/-! ### Basic order and fold lemmas -/

theorem ymLe_refl (a : ℕ × ℕ) : ymLe a a := by
  unfold ymLe; omega

theorem ymLe_total (a b : ℕ × ℕ) : ymLe a b ∨ ymLe b a := by
  unfold ymLe; omega

theorem ymLe_trans {a b c : ℕ × ℕ} (h1 : ymLe a b) (h2 : ymLe b c) : ymLe a c := by
  unfold ymLe at h1 h2 ⊢; omega

theorem laterOf_cases (a t : Stmt) : laterOf a t = a ∨ laterOf a t = t := by
  unfold laterOf; split <;> simp

theorem earlierOf_cases (a t : Stmt) : earlierOf a t = a ∨ earlierOf a t = t := by
  unfold earlierOf; split <;> simp

theorem minDateStep_cases (a x : ℕ × ℕ × ℕ) : minDateStep a x = a ∨ minDateStep a x = x := by
  unfold minDateStep; split <;> simp

theorem ymLe_laterOf_left (a t : Stmt) :
    ymLe (a.year, a.month) ((laterOf a t).year, (laterOf a t).month) := by
  unfold laterOf; split
  · assumption
  · exact ymLe_refl _

theorem ymLe_laterOf_right (a t : Stmt) :
    ymLe (t.year, t.month) ((laterOf a t).year, (laterOf a t).month) := by
  unfold laterOf; split
  · exact ymLe_refl _
  · rcases ymLe_total (a.year, a.month) (t.year, t.month) with h | h
    · exact absurd h (by assumption)
    · exact h

theorem foldl_choice_mem {α : Type} (g : α → α → α)
    (hg : ∀ a b, g a b = a ∨ g a b = b) :
    ∀ (l : List α) (s : α), l.foldl g s ∈ s :: l := by
  intro l
  induction l with
  | nil => intro s; simp
  | cons t rest ih =>
    intro s
    simp only [List.foldl_cons]
    rcases hg s t with h | h <;> rw [h] <;>
      [have h1 := ih s; have h1 := ih t] <;>
      simp only [List.mem_cons] at h1 ⊢ <;> tauto

theorem foldl_laterOf_ge :
    ∀ (l : List Stmt) (s : Stmt), ∀ t ∈ s :: l,
      ymLe (t.year, t.month) ((l.foldl laterOf s).year, (l.foldl laterOf s).month) := by
  intro l
  induction l with
  | nil =>
    intro s t ht
    simp only [List.mem_cons, List.not_mem_nil, or_false] at ht
    subst ht
    simpa using ymLe_refl (t.year, t.month)
  | cons u rest ih =>
    intro s t ht
    simp only [List.foldl_cons]
    rcases List.mem_cons.mp ht with rfl | ht2
    · exact ymLe_trans (ymLe_laterOf_left t u)
        (ih (laterOf t u) _ (List.mem_cons_self _ _))
    · rcases List.mem_cons.mp ht2 with rfl | ht3
      · exact ymLe_trans (ymLe_laterOf_right s t)
          (ih (laterOf s t) _ (List.mem_cons_self _ _))
      · exact ih (laterOf s u) t (List.mem_cons_of_mem _ ht3)

theorem latestStatement_mem {l : List Stmt} {L : Stmt}
    (h : latestStatement l = some L) : L ∈ l := by
  cases l with
  | nil => simp [latestStatement] at h
  | cons s rest =>
    simp only [latestStatement, Option.some_inj] at h
    subst h
    exact foldl_choice_mem laterOf laterOf_cases rest s

theorem latestStatement_ge {l : List Stmt} {L : Stmt}
    (h : latestStatement l = some L) :
    ∀ s ∈ l, ymLe (s.year, s.month) (L.year, L.month) := by
  cases l with
  | nil => simp
  | cons s rest =>
    simp only [latestStatement, Option.some_inj] at h
    subst h
    intro t ht
    exact foldl_laterOf_ge rest s t ht

theorem earliestStatement_mem {l : List Stmt} {s : Stmt}
    (h : earliestStatement l = some s) : s ∈ l := by
  cases l with
  | nil => simp [earliestStatement] at h
  | cons u rest =>
    simp only [earliestStatement, Option.some_inj] at h
    subst h
    exact foldl_choice_mem earlierOf earlierOf_cases rest u

theorem minDate_mem {l : List (ℕ × ℕ × ℕ)} {d : ℕ × ℕ × ℕ}
    (h : minDate l = some d) : d ∈ l := by
  cases l with
  | nil => simp [minDate] at h
  | cons u rest =>
    simp only [minDate, Option.some_inj] at h
    subst h
    exact foldl_choice_mem minDateStep minDateStep_cases rest u

theorem latestStatement_isSome {l : List Stmt} (h : l ≠ []) :
    (latestStatement l).isSome := by
  cases l with
  | nil => exact absurd rfl h
  | cons s rest => simp [latestStatement]

/-! ### Association list, waterfall and filterMap lemmas -/

theorem alookup_mem {α : Type} :
    ∀ {d : List (String × α)} {k : String} {v : α},
      alookup d k = some v → (k, v) ∈ d := by
  intro d
  induction d with
  | nil => intro k v h; simp [alookup] at h
  | cons p rest ih =>
    intro k v h
    obtain ⟨k0, x⟩ := p
    rw [alookup] at h
    by_cases hk : k0 = k
    · rw [if_pos hk] at h
      simp only [Option.some_inj] at h
      subst hk; subst h
      exact List.mem_cons_self _ _
    · rw [if_neg hk] at h
      exact List.mem_cons_of_mem _ (ih h)

theorem alookup_isSome_iff {α : Type} :
    ∀ (d : List (String × α)) (k : String),
      (alookup d k).isSome ↔ k ∈ d.map Prod.fst := by
  intro d
  induction d with
  | nil => intro k; simp [alookup]
  | cons p rest ih =>
    intro k
    obtain ⟨k0, x⟩ := p
    rw [alookup]
    by_cases hk : k0 = k
    · simp [if_pos hk, hk]
    · simp [if_neg hk, ih, Ne.symm hk]

theorem updateCell_keys {α : Type} :
    ∀ (d : List (String × α)) (n : String) (v : α),
      (updateCell d n v).map Prod.fst = d.map Prod.fst := by
  intro d
  induction d with
  | nil => intro n v; rfl
  | cons p rest ih =>
    intro n v
    obtain ⟨k0, x⟩ := p
    rw [updateCell]
    by_cases hk : k0 = n
    · rw [if_pos hk]; rfl
    · rw [if_neg hk]; simp [ih]

theorem updateCell_mem {α : Type} :
    ∀ {d : List (String × α)} {n : String} {v : α} {p : String × α},
      p ∈ updateCell d n v → p.2 = v ∨ p ∈ d := by
  intro d
  induction d with
  | nil => intro n v p h; simp [updateCell] at h
  | cons q rest ih =>
    intro n v p h
    obtain ⟨k0, x⟩ := q
    rw [updateCell] at h
    by_cases hk : k0 = n
    · rw [if_pos hk] at h
      rcases List.mem_cons.mp h with rfl | h2
      · left; rfl
      · right; exact List.mem_cons_of_mem _ h2
    · rw [if_neg hk] at h
      rcases List.mem_cons.mp h with rfl | h2
      · right; exact List.mem_cons_self _ _
      · rcases ih h2 with h3 | h3
        · left; exact h3
        · right; exact List.mem_cons_of_mem _ h3

theorem waterfall_keys :
    ∀ (ns : List String) (budget : ℚ) (cells : List (String × ℚ)),
      (waterfall budget ns cells).map Prod.fst = cells.map Prod.fst := by
  intro ns
  induction ns with
  | nil => intro budget cells; rfl
  | cons n rest ih =>
    intro budget cells
    rw [waterfall]
    split
    · exact updateCell_keys _ _ _
    · rw [ih]; exact updateCell_keys _ _ _

theorem waterfall_nonneg :
    ∀ (ns : List String) (budget : ℚ) (cells : List (String × ℚ)),
      (∀ p ∈ cells, 0 ≤ p.2) → ∀ p ∈ waterfall budget ns cells, 0 ≤ p.2 := by
  intro ns
  induction ns with
  | nil => intro budget cells h; exact h
  | cons n rest ih =>
    intro budget cells h p hp
    rw [waterfall] at hp
    split at hp
    · rcases updateCell_mem hp with h2 | h2
      · rw [h2]; linarith [show (alookup cells n).getD 0 ≥ budget by assumption]
      · exact h p h2
    · refine ih _ _ ?_ p hp
      intro q hq
      rcases updateCell_mem hq with h2 | h2
      · rw [h2]
      · exact h q h2

theorem length_filterMap_eq_iff {α β : Type} {f : α → Option β} :
    ∀ {l : List α},
      (l.filterMap f).length = l.length ↔ ∀ a ∈ l, (f a).isSome := by
  intro l
  induction l with
  | nil => simp
  | cons a rest ih =>
    cases h : f a with
    | none =>
      have hle := List.length_filterMap_le f rest
      simp only [List.filterMap_cons, h, List.length_cons]
      constructor
      · intro heq; omega
      · intro hall
        have := hall a (List.mem_cons_self _ _)
        rw [h] at this
        simp at this
    | some b =>
      simp only [List.filterMap_cons, h, List.length_cons, Nat.add_right_cancel_iff, ih]
      constructor
      · intro hall c hc
        rcases List.mem_cons.mp hc with rfl | h2
        · rw [h]; rfl
        · exact hall c h2
      · intro hall c hc
        exact hall c (List.mem_cons_of_mem _ hc)

/-! ### Characterizations of the engine's building blocks -/

theorem rowStep_foldl (cfg : Config) (st : LoopState) :
    ∀ (l : List CreditLine) (c m : List (String × ℚ)),
      l.foldl (rowStep cfg st) (c, m) =
        (c ++ l.map (fun a => (a.name, (calcBalFor cfg st a).1)),
         m ++ l.filterMap (fun a =>
           ((calcBalFor cfg st a).2).map (fun p => (a.name, p)))) := by
  intro l
  induction l with
  | nil => intro c m; simp
  | cons a rest ih =>
    intro c m
    simp only [List.foldl_cons]
    cases h2 : (calcBalFor cfg st a).2 with
    | none =>
      rw [show rowStep cfg st (c, m) a = (c ++ [(a.name, (calcBalFor cfg st a).1)], m) by
        rw [rowStep, h2]]
      rw [ih]
      simp [List.filterMap_cons, h2, List.append_assoc]
    | some p =>
      rw [show rowStep cfg st (c, m) a =
            (c ++ [(a.name, (calcBalFor cfg st a).1)], m ++ [(a.name, p)]) by
        rw [rowStep, h2]]
      rw [ih]
      simp [List.filterMap_cons, h2, List.append_assoc]

theorem rowPass_fst (cfg : Config) (st : LoopState) :
    (rowPass cfg st).1 = cfg.accs.map (fun a => (a.name, (calcBalFor cfg st a).1)) := by
  rw [rowPass, rowStep_foldl]
  simp

theorem rowPass_snd (cfg : Config) (st : LoopState) :
    (rowPass cfg st).2 = cfg.accs.filterMap (fun a =>
      ((calcBalFor cfg st a).2).map (fun p => (a.name, p))) := by
  rw [rowPass, rowStep_foldl]
  simp

theorem alookup_map_self {β : Type} (g : CreditLine → β) :
    ∀ (l : List CreditLine) (a : CreditLine), a ∈ l →
      (l.map CreditLine.name).Nodup →
      alookup (l.map (fun x => (x.name, g x))) a.name = some (g a) := by
  intro l
  induction l with
  | nil => intro a ha; simp at ha
  | cons b rest ih =>
    intro a ha hnd
    simp only [List.map_cons] at hnd ⊢
    rw [alookup]
    by_cases h : b.name = a.name
    · rw [if_pos h]
      rcases List.mem_cons.mp ha with rfl | hmem
      · rfl
      · exfalso
        have h1 : a.name ∈ rest.map CreditLine.name := List.mem_map_of_mem _ hmem
        have h2 := (List.nodup_cons.mp hnd).1
        rw [h] at h2
        exact h2 h1
    · rw [if_neg h]
      have hmem : a ∈ rest := by
        rcases List.mem_cons.mp ha with rfl | hmem
        · exact absurd rfl h
        · exact hmem
      exact ih a hmem (List.nodup_cons.mp hnd).2

theorem mem_orderInsert {x a : CreditLine} :
    ∀ {l : List CreditLine}, x ∈ orderInsert a l ↔ x = a ∨ x ∈ l := by
  intro l
  induction l with
  | nil => simp [orderInsert]
  | cons b rest ih =>
    rw [orderInsert]
    split
    · simp [List.mem_cons]
    · simp only [List.mem_cons, ih]
      tauto

theorem mem_orderByPriority {x : CreditLine} :
    ∀ {l : List CreditLine}, x ∈ orderByPriority l ↔ x ∈ l := by
  intro l
  induction l with
  | nil => simp [orderByPriority]
  | cons a rest ih =>
    rw [orderByPriority, mem_orderInsert, ih]
    simp [List.mem_cons]

theorem mem_filteredAccounts {a : CreditLine} {l : List CreditLine} :
    a ∈ filteredAccounts l ↔ a ∈ l ∧ 0 < a.credit_line ∧ a.statements ≠ [] := by
  unfold filteredAccounts sortedAccounts
  simp only [List.mem_filter, mem_orderByPriority, Bool.not_eq_true',
    List.isEmpty_eq_false, decide_eq_true_eq]
  tauto

theorem calc_balance_forecast (cl : CreditLine) (month year : ℕ) (prev : ℚ)
    (ls : ℕ × ℕ) (lb : ℚ)
    (h : ¬(year < ls.1 ∨ (month ≤ ls.2 ∧ year = ls.1))) :
    cl.calc_balance month year prev ls lb =
      (cl.forecast_next prev, some (cl.min_pay prev)) := by
  rw [CreditLine.calc_balance, if_neg h]

theorem calc_balance_snd_eq_none (cl : CreditLine) (month year : ℕ) (prev : ℚ)
    (ls : ℕ × ℕ) (lb : ℚ)
    (h : year < ls.1 ∨ (month ≤ ls.2 ∧ year = ls.1)) :
    (cl.calc_balance month year prev ls lb).2 = none := by
  rw [CreditLine.calc_balance, if_pos h]
  cases hf : findStatement cl.statements year month <;> rfl

theorem calc_balance_snd_some {cl : CreditLine} {month year : ℕ} {prev : ℚ}
    {ls : ℕ × ℕ} {lb : ℚ} {p : ℚ}
    (h : (cl.calc_balance month year prev ls lb).2 = some p) :
    (cl.calc_balance month year prev ls lb).1 = cl.forecast_next prev ∧
      p = cl.min_pay prev := by
  by_cases hc : year < ls.1 ∨ (month ≤ ls.2 ∧ year = ls.1)
  · rw [calc_balance_snd_eq_none cl month year prev ls lb hc] at h
    simp at h
  · rw [calc_balance_forecast cl month year prev ls lb hc] at h ⊢
    simp only [Option.some_inj] at h
    exact ⟨rfl, h.symm⟩

theorem forecast_next_nonneg (cl : CreditLine) (bal : ℚ) :
    0 ≤ cl.forecast_next bal :=
  le_max_right _ _

theorem min_pay_nonneg (cl : CreditLine) (bal : ℚ)
    (hd : 0 ≤ cl.min_pay_dlr) (hb : 0 ≤ bal) : 0 ≤ cl.min_pay bal := by
  rw [CreditLine.min_pay]
  exact le_min (le_trans hd (le_max_left _ _)) hb

theorem findStatement_some {stmts : List Stmt} {year month : ℕ} {s : Stmt}
    (h : findStatement stmts year month = some s) :
    s ∈ stmts ∧ s.year = year ∧ s.month = month := by
  refine ⟨List.mem_of_find?_eq_some h, ?_⟩
  have := List.find?_some h
  simpa using this

/-! ### Loop lemmas -/

theorem increment_rows (st : LoopState) : (increment st).rows = st.rows := by
  rw [increment]; split <;> rfl

theorem increment_idx (st : LoopState) :
    12 * (increment st).year + (increment st).month = 12 * st.year + st.month + 1 := by
  rw [increment]; split <;> rename_i h <;> dsimp only <;> omega

theorem increment_month_range (st : LoopState) (h2 : st.month ≤ 12) :
    1 ≤ (increment st).month ∧ (increment st).month ≤ 12 := by
  rw [increment]; split <;> rename_i h <;> dsimp only <;>
    refine ⟨by omega, by omega⟩

theorem calc_next_row_keys (cfg : Config) (st : LoopState) :
    (calc_next_row cfg st).cells.map Prod.fst = cfg.accs.map CreditLine.name := by
  simp only [calc_next_row]
  split
  · split
    · rw [waterfall_keys, rowPass_fst, List.map_map]
      rfl
    · rw [rowPass_fst, List.map_map]
      rfl
  · rw [rowPass_fst, List.map_map]
    rfl

theorem calc_rows_invariant (cfg : Config) (P : Row → Prop)
    (hstep : ∀ st : LoopState, (∀ r ∈ st.rows, P r) → P (calc_next_row cfg st)) :
    ∀ (fuel : ℕ) (st : LoopState), (∀ r ∈ st.rows, P r) →
      ∀ r ∈ (calc_rows cfg fuel st).rows, P r := by
  intro fuel
  induction fuel with
  | zero =>
    intro st h r hr
    rw [calc_rows] at hr
    exact h r hr
  | succ n ih =>
    intro st h r hr
    rw [calc_rows] at hr
    split at hr
    · exact h r hr
    · refine ih _ ?_ r hr
      intro q hq
      rw [increment_rows] at hq
      simp only [List.mem_append, List.mem_singleton] at hq
      rcases hq with hq | rfl
      · exact h q hq
      · exact hstep st h

theorem calc_rows_length_mono (cfg : Config) :
    ∀ (fuel : ℕ) (st : LoopState),
      st.rows.length ≤ (calc_rows cfg fuel st).rows.length := by
  intro fuel
  induction fuel with
  | zero => intro st; rw [calc_rows]
  | succ n ih =>
    intro st
    rw [calc_rows]
    split
    · exact le_refl _
    · refine le_trans ?_ (ih _)
      rw [increment_rows]
      simp

theorem after_this_month_of_idx (cfg : Config) (st : LoopState)
    (hm2 : st.month ≤ 12) (hn : 1 ≤ cfg.nowM)
    (hidx : 12 * cfg.nowY + cfg.nowM < 12 * st.year + st.month) :
    after_this_month cfg st = true := by
  rw [after_this_month]
  simp only [Bool.or_eq_true, Bool.and_eq_true, decide_eq_true_eq, gt_iff_lt]
  omega

theorem calc_rows_break_hist (cfg : Config) (hf : cfg.do_forecasting = false)
    (hn : 1 ≤ cfg.nowM) :
    ∀ (fuel : ℕ) (st : LoopState), st.month ≤ 12 →
      12 * cfg.nowY + cfg.nowM + 1 ≤ 12 * st.year + st.month + fuel →
      break_loop cfg (calc_rows cfg fuel st) = true := by
  intro fuel
  induction fuel with
  | zero =>
    intro st h2 h3
    rw [calc_rows, break_loop, hf]
    simp only [Bool.false_eq_true, if_false]
    exact after_this_month_of_idx cfg st h2 hn (by omega)
  | succ n ih =>
    intro st h2 h3
    rw [calc_rows]
    split
    · assumption
    · have hidx :
          12 * (increment { st with rows := st.rows ++ [calc_next_row cfg st] }).year +
              (increment { st with rows := st.rows ++ [calc_next_row cfg st] }).month =
            12 * st.year + st.month + 1 :=
        increment_idx _
      apply ih
      · exact (increment_month_range { st with rows := st.rows ++ [calc_next_row cfg st] } h2).2
      · omega

theorem calc_rows_break_fore (cfg : Config) (hf : cfg.do_forecasting = true) :
    ∀ (fuel : ℕ) (st : LoopState), MAX_ROWS + 1 ≤ st.rows.length + fuel →
      break_loop cfg (calc_rows cfg fuel st) = true := by
  intro fuel
  induction fuel with
  | zero =>
    intro st h
    rw [calc_rows, break_loop, hf]
    simp only [if_true]
    cases hl : st.rows.getLast? with
    | none =>
      rw [List.getLast?_eq_none_iff] at hl
      rw [hl] at h
      simp [MAX_ROWS] at h
    | some r =>
      simp only [Bool.or_eq_true, decide_eq_true_eq]
      right
      omega
  | succ n ih =>
    intro st h
    rw [calc_rows]
    split
    · assumption
    · apply ih
      rw [increment_rows]
      simp only [List.length_append, List.length_singleton]
      omega

theorem calc_rows_length_fore (cfg : Config) (hf : cfg.do_forecasting = true) :
    ∀ (fuel : ℕ) (st : LoopState), st.rows.length ≤ MAX_ROWS →
      (calc_rows cfg fuel st).rows.length ≤ MAX_ROWS := by
  intro fuel
  induction fuel with
  | zero => intro st h; rw [calc_rows]; exact h
  | succ n ih =>
    intro st h
    rw [calc_rows]
    split
    · exact h
    · rename_i hbreak
      apply ih
      rw [increment_rows]
      simp only [List.length_append, List.length_singleton]
      rw [break_loop, hf] at hbreak
      simp only [if_true] at hbreak
      cases hl : st.rows.getLast? with
      | none =>
        rw [List.getLast?_eq_none_iff] at hl
        rw [hl]
        simp [MAX_ROWS]
      | some r =>
        rw [hl] at hbreak
        simp only [Bool.or_eq_true, decide_eq_true_eq, not_or] at hbreak
        omega

/-! ### Case analysis of `calc_next_row` -/

theorem calc_next_row_cells_eq (cfg : Config) (st : LoopState) :
    (calc_next_row cfg st).cells =
      if after_this_month cfg st && decide ((rowPass cfg st).2.length = cfg.names.length) then
        if availableBudget cfg st > 0 then
          waterfall (availableBudget cfg st) cfg.names (rowPass cfg st).1
        else (rowPass cfg st).1
      else (rowPass cfg st).1 := by
  rw [calc_next_row, availableBudget]

theorem calc_next_row_total_eq (cfg : Config) (st : LoopState) :
    (calc_next_row cfg st).total = ((calc_next_row cfg st).cells.map Prod.snd).sum := by
  rw [calc_next_row]

theorem calc_next_row_label_eq (cfg : Config) (st : LoopState) :
    (calc_next_row cfg st).label = monthAbbr st.month ++ " " ++ toString st.year := by
  rw [calc_next_row]

theorem rowPass_snd_length_ne (cfg : Config) (st : LoopState)
    (hnames : cfg.names = cfg.accs.map CreditLine.name)
    {a : CreditLine} (ha : a ∈ cfg.accs) (hnone : (calcBalFor cfg st a).2 = none) :
    ((rowPass cfg st).2).length ≠ cfg.names.length := by
  rw [rowPass_snd, hnames, List.length_map]
  intro heq
  have hall := length_filterMap_eq_iff.mp heq a ha
  rw [hnone] at hall
  simp at hall

theorem rowPass_snd_length_eq (cfg : Config) (st : LoopState)
    (hnames : cfg.names = cfg.accs.map CreditLine.name)
    (hall : ∀ a ∈ cfg.accs, ((calcBalFor cfg st a).2).isSome) :
    ((rowPass cfg st).2).length = cfg.names.length := by
  rw [rowPass_snd, hnames, List.length_map]
  refine length_filterMap_eq_iff.mpr ?_
  intro a ha
  have := hall a ha
  cases h : (calcBalFor cfg st a).2 with
  | none => rw [h] at this; simp at this
  | some p => rfl

theorem calc_next_row_cells_of_none (cfg : Config) (st : LoopState)
    (hnames : cfg.names = cfg.accs.map CreditLine.name)
    {a : CreditLine} (ha : a ∈ cfg.accs) (hnone : (calcBalFor cfg st a).2 = none) :
    (calc_next_row cfg st).cells = (rowPass cfg st).1 := by
  rw [calc_next_row_cells_eq, if_neg]
  intro hcond
  rw [Bool.and_eq_true] at hcond
  exact rowPass_snd_length_ne cfg st hnames ha hnone (of_decide_eq_true hcond.2)

theorem calc_next_row_cells_of_nonpos (cfg : Config) (st : LoopState)
    (hb : availableBudget cfg st ≤ 0) :
    (calc_next_row cfg st).cells = (rowPass cfg st).1 := by
  rw [calc_next_row_cells_eq]
  split
  · rw [if_neg (not_lt.mpr hb)]
  · rfl

theorem calc_next_row_cells_of_waterfall (cfg : Config) (st : LoopState)
    (hnames : cfg.names = cfg.accs.map CreditLine.name)
    (hafter : after_this_month cfg st = true)
    (hall : ∀ a ∈ cfg.accs, ((calcBalFor cfg st a).2).isSome)
    (hb : 0 < availableBudget cfg st) :
    (calc_next_row cfg st).cells =
      waterfall (availableBudget cfg st) cfg.names (rowPass cfg st).1 := by
  rw [calc_next_row_cells_eq, if_pos, if_pos hb]
  rw [Bool.and_eq_true, hafter]
  exact ⟨rfl, decide_eq_true (rowPass_snd_length_eq cfg st hnames hall)⟩

theorem rowPass_snd_mem (cfg : Config) (st : LoopState) {q : String × ℚ}
    (hq : q ∈ (rowPass cfg st).2) :
    ∃ a ∈ cfg.accs, (calcBalFor cfg st a).2 = some q.2 := by
  rw [rowPass_snd] at hq
  rw [List.mem_filterMap] at hq
  obtain ⟨a, ha, hmap⟩ := hq
  refine ⟨a, ha, ?_⟩
  cases h : (calcBalFor cfg st a).2 with
  | none => rw [h] at hmap; simp at hmap
  | some p =>
    rw [h] at hmap
    have hmap2 : some (a.name, p) = some q := hmap
    rw [Option.some_inj] at hmap2
    rw [← hmap2]

/-! ### `mkConfig` bridges -/

theorem mkConfig_accs (inp : EngineInput) :
    (mkConfig inp).accs = filteredAccounts inp.accounts := rfl

theorem mkConfig_names (inp : EngineInput) :
    (mkConfig inp).names = (mkConfig inp).accs.map CreditLine.name := rfl

theorem mkConfig_alookup_latest (inp : EngineInput) {a : CreditLine}
    (ha : a ∈ (mkConfig inp).accs)
    (hnd : ((mkConfig inp).accs.map CreditLine.name).Nodup) :
    alookup (mkConfig inp).latest_stmnts a.name =
      some (((latestStatement a.statements).map (fun s => (s.year, s.month))).getD (0, 0)) := by
  exact alookup_map_self
    (fun x => ((latestStatement x.statements).map (fun s => (s.year, s.month))).getD (0, 0))
    (mkConfig inp).accs a ha hnd

theorem mkConfig_alookup_balances (inp : EngineInput) {a : CreditLine}
    (ha : a ∈ (mkConfig inp).accs)
    (hnd : ((mkConfig inp).accs.map CreditLine.name).Nodup) :
    alookup (mkConfig inp).balances a.name = some a.balance :=
  alookup_map_self CreditLine.balance (mkConfig inp).accs a ha hnd

/-! ### `run` bridges and nonnegativity helpers -/

theorem run_rows (inp : EngineInput) :
    (run inp).rows = (calc_rows (mkConfig inp) (fuelFor inp) (startState inp)).rows := rfl

theorem run_warnings (inp : EngineInput) :
    (run inp).warnings = budgetWarnings inp ++ startWarnings inp := rfl

theorem run_finished (inp : EngineInput) :
    (run inp).finished =
      break_loop (mkConfig inp) (calc_rows (mkConfig inp) (fuelFor inp) (startState inp)) := rfl

theorem calcBalFor_snd_some {cfg : Config} {st : LoopState} {a : CreditLine} {p : ℚ}
    (h : (calcBalFor cfg st a).2 = some p) :
    (calcBalFor cfg st a).1 = a.forecast_next (prevBalFor cfg st a) ∧
      p = a.min_pay (prevBalFor cfg st a) := by
  rw [calcBalFor] at h ⊢
  exact calc_balance_snd_some h

theorem alookup_rowPass_fst (cfg : Config) (st : LoopState) {a : CreditLine}
    (ha : a ∈ cfg.accs) (hnd : (cfg.accs.map CreditLine.name).Nodup) :
    alookup (rowPass cfg st).1 a.name = some ((calcBalFor cfg st a).1) := by
  rw [rowPass_fst]
  exact alookup_map_self (fun x => (calcBalFor cfg st x).1) cfg.accs a ha hnd

theorem balance_nonneg_of {a : CreditLine} (hne : a.statements ≠ [])
    (h : ∀ s ∈ a.statements, 0 ≤ s.balance) : 0 ≤ a.balance := by
  cases hL : latestStatement a.statements with
  | none =>
    have := latestStatement_isSome hne
    rw [hL] at this
    simp at this
  | some L =>
    rw [CreditLine.balance, hL]
    exact h L (latestStatement_mem hL)

theorem rowPass_fst_nonneg (cfg : Config) (st : LoopState)
    (hbal : ∀ q ∈ cfg.balances, 0 ≤ q.2)
    (hstmts : ∀ a ∈ cfg.accs, ∀ s ∈ a.statements, 0 ≤ s.balance) :
    ∀ q ∈ (rowPass cfg st).1, 0 ≤ q.2 := by
  intro q hq
  rw [rowPass_fst] at hq
  rw [List.mem_map] at hq
  obtain ⟨b, hb, rfl⟩ := hq
  show 0 ≤ (calcBalFor cfg st b).1
  rw [calcBalFor, CreditLine.calc_balance]
  split
  · cases hf : findStatement b.statements st.year st.month with
    | some s =>
      exact hstmts b hb s (findStatement_some hf).1
    | none =>
      cases ha : alookup cfg.balances b.name with
      | none => simp [ha]
      | some v =>
        simp only [ha, Option.getD_some]
        exact hbal (b.name, v) (alookup_mem ha)
  · exact forecast_next_nonneg b _

theorem mkConfig_balances_nonneg (inp : EngineInput)
    (h : ∀ a ∈ inp.accounts, ∀ s ∈ a.statements, 0 ≤ s.balance) :
    ∀ q ∈ (mkConfig inp).balances, 0 ≤ q.2 := by
  intro q hq
  have hq2 : q ∈ (mkConfig inp).accs.map (fun x => (x.name, x.balance)) := hq
  rw [List.mem_map] at hq2
  obtain ⟨b, hb, rfl⟩ := hq2
  obtain ⟨hbmem, -, hbne⟩ := mem_filteredAccounts.mp (by rw [← mkConfig_accs]; exact hb)
  exact balance_nonneg_of hbne (h b hbmem)

theorem mkConfig_stmts_nonneg (inp : EngineInput)
    (h : ∀ a ∈ inp.accounts, ∀ s ∈ a.statements, 0 ≤ s.balance) :
    ∀ a ∈ (mkConfig inp).accs, ∀ s ∈ a.statements, 0 ≤ s.balance := by
  intro a ha
  exact h a (mem_filteredAccounts.mp (by rw [← mkConfig_accs]; exact ha)).1

theorem calc_next_row_cells_nonneg (cfg : Config) (st : LoopState)
    (hplain : ∀ q ∈ (rowPass cfg st).1, 0 ≤ q.2) :
    ∀ q ∈ (calc_next_row cfg st).cells, 0 ≤ q.2 := by
  rw [calc_next_row_cells_eq]
  split
  · split
    · exact waterfall_nonneg cfg.names (availableBudget cfg st) _ hplain
    · exact hplain
  · exact hplain

/-! ### Claim theorems -/

/-- C9: for every balance, the current `min_pay` equals the historical
`min_pay` capped at the balance, never exceeds the balance, and differs
from the historical variant exactly when the uncapped value exceeds the
balance. -/
theorem C9_min_pay_refines_legacy (cl : CreditLine) (bal : ℚ) (_hb : 0 ≤ bal) :
    cl.min_pay bal = min (cl.min_pay_legacy bal) bal ∧
    cl.min_pay bal ≤ bal ∧
    (cl.min_pay bal ≠ cl.min_pay_legacy bal ↔ bal < cl.min_pay_legacy bal) := by
  refine ⟨rfl, min_le_right _ _, ?_⟩
  rw [CreditLine.min_pay, CreditLine.min_pay_legacy]
  constructor
  · intro hne
    by_contra hle
    rw [not_lt] at hle
    exact hne (min_eq_left hle)
  · intro hlt
    rw [min_eq_right (le_of_lt hlt)]
    exact ne_of_lt hlt

/-- Witness for C9 at the spec's own example: floor 30, 3 percent,
balance 400. -/
theorem C9_min_pay_refines_legacy_witness :
    ({ name := "Checking", statement_date := 1, interest_rate := 12,
       credit_line := 1000, min_pay_pct := 3, min_pay_dlr := 30,
       priority := 1, statements := [] } : CreditLine).min_pay 400 =
        min (({ name := "Checking", statement_date := 1, interest_rate := 12,
                credit_line := 1000, min_pay_pct := 3, min_pay_dlr := 30,
                priority := 1, statements := [] } : CreditLine).min_pay_legacy 400) 400 ∧
      ({ name := "Checking", statement_date := 1, interest_rate := 12,
         credit_line := 1000, min_pay_pct := 3, min_pay_dlr := 30,
         priority := 1, statements := [] } : CreditLine).min_pay 400 ≤ 400 ∧
      (({ name := "Checking", statement_date := 1, interest_rate := 12,
          credit_line := 1000, min_pay_pct := 3, min_pay_dlr := 30,
          priority := 1, statements := [] } : CreditLine).min_pay 400 ≠
          ({ name := "Checking", statement_date := 1, interest_rate := 12,
             credit_line := 1000, min_pay_pct := 3, min_pay_dlr := 30,
             priority := 1, statements := [] } : CreditLine).min_pay_legacy 400 ↔
        400 < ({ name := "Checking", statement_date := 1, interest_rate := 12,
                 credit_line := 1000, min_pay_pct := 3, min_pay_dlr := 30,
                 priority := 1, statements := [] } : CreditLine).min_pay_legacy 400) :=
  C9_min_pay_refines_legacy _ 400 (by norm_num)

/-- C1: with the latest statement `L` cached, `calc_balance` returns the
recorded statement balance when one exists for the month, anchors to the
latest balance for a gap on-or-before the latest statement month
(compared lexicographically on year then month), and otherwise forecasts
with the clamped minimum payment. -/
theorem C1_calc_balance_cases (cl : CreditLine) (y m : ℕ) (prev : ℚ) (L : Stmt)
    (hL : latestStatement cl.statements = some L) :
    (∀ s : Stmt, findStatement cl.statements y m = some s →
        cl.calc_balance m y prev (L.year, L.month) L.balance = (s.balance, none)) ∧
    (findStatement cl.statements y m = none → ymLexLe y m L.year L.month →
        cl.calc_balance m y prev (L.year, L.month) L.balance = (L.balance, none)) ∧
    (¬ ymLexLe y m L.year L.month →
        cl.calc_balance m y prev (L.year, L.month) L.balance =
          (max (prev * (1 + cl.interest_rate / 100 / 12) -
              min (max cl.min_pay_dlr (cl.min_pay_pct / 100 * prev)) prev) 0,
            some (min (max cl.min_pay_dlr (cl.min_pay_pct / 100 * prev)) prev))) := by
  refine ⟨?_, ?_, ?_⟩
  · intro s hs
    obtain ⟨hsmem, hsy, hsm⟩ := findStatement_some hs
    have hge := latestStatement_ge hL s hsmem
    rw [ymLe] at hge
    simp only [] at hge
    have hcond : y < L.year ∨ (m ≤ L.month ∧ y = L.year) := by omega
    rw [CreditLine.calc_balance, if_pos hcond]
    simp only [hs]
  · intro hnone hle
    rw [ymLexLe] at hle
    have hcond : y < L.year ∨ (m ≤ L.month ∧ y = L.year) := by omega
    rw [CreditLine.calc_balance, if_pos hcond]
    simp only [hnone]
  · intro hgt
    rw [ymLexLe] at hgt
    have hcond : ¬(y < L.year ∨ (m ≤ L.month ∧ y = L.year)) := by omega
    rw [CreditLine.calc_balance, if_neg hcond]
    rfl

/-- Witness for C1: the forecasting case at the spec's example account
(floor 30, 12 percent APR, previous balance 400), one month past a
January 2020 statement. -/
theorem C1_calc_balance_cases_witness :
    ({ name := "Checking", statement_date := 1, interest_rate := 12,
       credit_line := 1000, min_pay_pct := 3, min_pay_dlr := 30,
       priority := 1, statements := [⟨2020, 1, 420⟩] } : CreditLine).calc_balance
        2 2020 400 (2020, 1) 420 = (374, some 30) := by
  have h := (C1_calc_balance_cases
    { name := "Checking", statement_date := 1, interest_rate := 12,
      credit_line := 1000, min_pay_pct := 3, min_pay_dlr := 30,
      priority := 1, statements := [⟨2020, 1, 420⟩] }
    2020 2 400 ⟨2020, 1, 420⟩ rfl).2.2 (by decide)
  rw [h]
  norm_num [min_def, max_def, Prod.ext_iff]

/-- C6: if an account has a recorded statement for the simulated month,
the produced row's cell for that account is exactly the statement's
balance: the month is resolved from the statement and, since that
account contributes no forecast minimum payment, the waterfall is
skipped for the whole month. -/
theorem C6_statement_balance_authoritative (inp : EngineInput) (st : LoopState)
    (a : CreditLine) (s : Stmt)
    (hnd : ((mkConfig inp).accs.map CreditLine.name).Nodup)
    (ha : a ∈ (mkConfig inp).accs)
    (hs : findStatement a.statements st.year st.month = some s) :
    alookup (calc_next_row (mkConfig inp) st).cells a.name = some s.balance := by
  obtain ⟨-, -, hne⟩ := mem_filteredAccounts.mp (by rw [← mkConfig_accs]; exact ha)
  obtain ⟨L, hL⟩ := Option.isSome_iff_exists.mp (latestStatement_isSome hne)
  obtain ⟨hsmem, hsy, hsm⟩ := findStatement_some hs
  have hge := latestStatement_ge hL s hsmem
  rw [ymLe] at hge
  simp only [] at hge
  have hcond : st.year < L.year ∨ (st.month ≤ L.month ∧ st.year = L.year) := by omega
  have hcache := mkConfig_alookup_latest inp ha hnd
  rw [hL] at hcache
  simp only [Option.map_some', Option.getD_some] at hcache
  have hcb : calcBalFor (mkConfig inp) st a = (s.balance, none) := by
    rw [calcBalFor, hcache]
    simp only [Option.getD_some]
    rw [CreditLine.calc_balance, if_pos hcond]
    simp only [hs]
  have hcells := calc_next_row_cells_of_none (mkConfig inp) st (mkConfig_names inp) ha
    (by rw [hcb])
  rw [hcells]
  rw [alookup_rowPass_fst (mkConfig inp) st ha hnd, hcb]

/-- Witness for C6: in the two-account January 2020 scenario, the Jan
2020 row reports account A's recorded statement balance 100. -/
theorem C6_statement_balance_authoritative_witness :
    alookup (calc_next_row
      (mkConfig ⟨[{ name := "A", statement_date := 1, interest_rate := 0,
                    credit_line := 200, min_pay_pct := 0, min_pay_dlr := 0,
                    priority := 1, statements := [⟨2020, 1, 100⟩] }],
                 some 120, 2020, 1, true⟩)
      ⟨[], 1, 2020⟩).cells "A" = some 100 := by
  have h := C6_statement_balance_authoritative
    ⟨[{ name := "A", statement_date := 1, interest_rate := 0,
        credit_line := 200, min_pay_pct := 0, min_pay_dlr := 0,
        priority := 1, statements := [⟨2020, 1, 100⟩] }],
      some 120, 2020, 1, true⟩
    ⟨[], 1, 2020⟩
    { name := "A", statement_date := 1, interest_rate := 0,
      credit_line := 200, min_pay_pct := 0, min_pay_dlr := 0,
      priority := 1, statements := [⟨2020, 1, 100⟩] }
    ⟨2020, 1, 100⟩
    (by norm_num [mkConfig, filteredAccounts, sortedAccounts, orderByPriority, orderInsert])
    (by norm_num [mkConfig, filteredAccounts, sortedAccounts, orderByPriority, orderInsert])
    (by norm_num [findStatement])
  exact h

theorem startState_rows (inp : EngineInput) : (startState inp).rows = [] := by
  rw [startState]
  cases minDate (startDates (mkConfig inp).accs) <;> rfl

/-- C7: a forecast balance is never negative. First part: whenever an
account's month was resolved by forecasting (a minimum payment was
returned), the produced row's cell for it is defined and nonnegative,
waterfall or not. Second part: when all recorded statement balances are
nonnegative, every cell of every produced row is nonnegative. -/
theorem C7_projected_balances_nonneg :
    (∀ (inp : EngineInput) (st : LoopState) (a : CreditLine) (p : ℚ),
        ((mkConfig inp).accs.map CreditLine.name).Nodup →
        a ∈ (mkConfig inp).accs →
        (calcBalFor (mkConfig inp) st a).2 = some p →
        ∃ v, alookup (calc_next_row (mkConfig inp) st).cells a.name = some v ∧ 0 ≤ v) ∧
    (∀ inp : EngineInput,
        (∀ a ∈ inp.accounts, ∀ s ∈ a.statements, 0 ≤ s.balance) →
        ∀ r ∈ (run inp).rows, ∀ q ∈ r.cells, 0 ≤ q.2) := by
  constructor
  · intro inp st a p hnd ha hp
    rw [calc_next_row_cells_eq]
    by_cases hcond : (after_this_month (mkConfig inp) st &&
        decide ((rowPass (mkConfig inp) st).2.length = (mkConfig inp).names.length)) = true
    · rw [if_pos hcond]
      by_cases hbud : availableBudget (mkConfig inp) st > 0
      · rw [if_pos hbud]
        rw [Bool.and_eq_true] at hcond
        have hlen := of_decide_eq_true hcond.2
        rw [rowPass_snd, mkConfig_names inp, List.length_map] at hlen
        have hallsome : ∀ b ∈ (mkConfig inp).accs, ((calcBalFor (mkConfig inp) st b).2).isSome := by
          intro b hb
          have hb2 := length_filterMap_eq_iff.mp hlen b hb
          cases hoo : (calcBalFor (mkConfig inp) st b).2 with
          | none => rw [hoo] at hb2; simp at hb2
          | some _ => rfl
        have hplain : ∀ q ∈ (rowPass (mkConfig inp) st).1, 0 ≤ q.2 := by
          intro q hq
          rw [rowPass_fst] at hq
          rw [List.mem_map] at hq
          obtain ⟨b, hb, rfl⟩ := hq
          obtain ⟨p', hp'⟩ := Option.isSome_iff_exists.mp (hallsome b hb)
          show 0 ≤ (calcBalFor (mkConfig inp) st b).1
          rw [(calcBalFor_snd_some hp').1]
          exact forecast_next_nonneg _ _
        have hsome : (alookup (waterfall (availableBudget (mkConfig inp) st)
            (mkConfig inp).names (rowPass (mkConfig inp) st).1) a.name).isSome := by
          rw [alookup_isSome_iff, waterfall_keys, ← alookup_isSome_iff,
            alookup_rowPass_fst (mkConfig inp) st ha hnd]
          rfl
        obtain ⟨v, hv⟩ := Option.isSome_iff_exists.mp hsome
        exact ⟨v, hv, waterfall_nonneg _ _ _ hplain (a.name, v) (alookup_mem hv)⟩
      · rw [if_neg hbud]
        refine ⟨(calcBalFor (mkConfig inp) st a).1,
          alookup_rowPass_fst (mkConfig inp) st ha hnd, ?_⟩
        rw [(calcBalFor_snd_some hp).1]
        exact forecast_next_nonneg _ _
    · rw [if_neg hcond]
      refine ⟨(calcBalFor (mkConfig inp) st a).1,
        alookup_rowPass_fst (mkConfig inp) st ha hnd, ?_⟩
      rw [(calcBalFor_snd_some hp).1]
      exact forecast_next_nonneg _ _
  · intro inp hstmt r hr q hq
    refine calc_rows_invariant (mkConfig inp) (fun r => ∀ q ∈ r.cells, 0 ≤ q.2) ?_
      (fuelFor inp) (startState inp) ?_ r ?_ q hq
    · intro st _
      exact calc_next_row_cells_nonneg _ st
        (rowPass_fst_nonneg _ st (mkConfig_balances_nonneg inp hstmt)
          (mkConfig_stmts_nonneg inp hstmt))
    · rw [startState_rows]
      intro r2 hr2
      simp at hr2
    · rw [← run_rows]
      exact hr

/-- Witness for C7: the forecast month Feb 2020 in the one-account
scenario (statement 100, floor 10) yields the nonnegative cell 90, and
the full run of that scenario only produces nonnegative cells. -/
theorem C7_projected_balances_nonneg_witness :
    (∃ v, alookup (calc_next_row
        (mkConfig ⟨[{ name := "A", statement_date := 1, interest_rate := 0,
                      credit_line := 200, min_pay_pct := 0, min_pay_dlr := 10,
                      priority := 1, statements := [⟨2020, 1, 100⟩] }],
                   some 50, 2020, 3, false⟩)
        ⟨[], 2, 2020⟩).cells "A" = some v ∧ 0 ≤ v) ∧
    (∀ r ∈ (run ⟨[{ name := "A", statement_date := 1, interest_rate := 0,
                    credit_line := 200, min_pay_pct := 0, min_pay_dlr := 10,
                    priority := 1, statements := [⟨2020, 1, 100⟩] }],
                 some 50, 2020, 3, false⟩).rows, ∀ q ∈ r.cells, 0 ≤ q.2) := by
  constructor
  · exact C7_projected_balances_nonneg.1
      ⟨[{ name := "A", statement_date := 1, interest_rate := 0,
          credit_line := 200, min_pay_pct := 0, min_pay_dlr := 10,
          priority := 1, statements := [⟨2020, 1, 100⟩] }],
        some 50, 2020, 3, false⟩
      ⟨[], 2, 2020⟩
      { name := "A", statement_date := 1, interest_rate := 0,
        credit_line := 200, min_pay_pct := 0, min_pay_dlr := 10,
        priority := 1, statements := [⟨2020, 1, 100⟩] }
      (({ name := "A", statement_date := 1, interest_rate := 0,
          credit_line := 200, min_pay_pct := 0, min_pay_dlr := 10,
          priority := 1, statements := [⟨2020, 1, 100⟩] } : CreditLine).min_pay 100)
      (by norm_num [mkConfig, filteredAccounts, sortedAccounts, orderByPriority, orderInsert])
      (by norm_num [mkConfig, filteredAccounts, sortedAccounts, orderByPriority, orderInsert])
      (by norm_num [mkConfig, filteredAccounts, sortedAccounts, orderByPriority, orderInsert,
        calcBalFor, prevBalFor, alookup, CreditLine.balance, latestStatement,
        CreditLine.calc_balance])
  · exact C7_projected_balances_nonneg.2 _ (by norm_num)

/-! ### Stepping and counting lemmas for concrete runs -/

theorem calc_rows_done (cfg : Config) (st : LoopState) (n : ℕ)
    (h : break_loop cfg st = true) : calc_rows cfg n st = st := by
  cases n with
  | zero => rw [calc_rows]
  | succ m => rw [calc_rows, h]; simp

theorem calc_rows_go (cfg : Config) (st : LoopState) (n : ℕ)
    (h : break_loop cfg st = false) (hn : 0 < n) :
    calc_rows cfg n st =
      calc_rows cfg (n - 1)
        (increment { st with rows := st.rows ++ [calc_next_row cfg st] }) := by
  cases n with
  | zero => omega
  | succ m => rw [calc_rows, h]; simp

theorem idx_of_after (cfg : Config) (st : LoopState)
    (hm1 : 1 ≤ st.month) (hn2 : cfg.nowM ≤ 12)
    (h : after_this_month cfg st = true) :
    12 * cfg.nowY + cfg.nowM < 12 * st.year + st.month := by
  rw [after_this_month] at h
  simp only [Bool.or_eq_true, Bool.and_eq_true, decide_eq_true_eq, gt_iff_lt] at h
  omega

theorem calc_rows_length_hist (cfg : Config) (hf : cfg.do_forecasting = false)
    (hn1 : 1 ≤ cfg.nowM) (hn2 : cfg.nowM ≤ 12) :
    ∀ (fuel : ℕ) (st : LoopState), 1 ≤ st.month → st.month ≤ 12 →
      12 * cfg.nowY + cfg.nowM + 1 ≤ 12 * st.year + st.month + fuel →
      (calc_rows cfg fuel st).rows.length =
        st.rows.length + (12 * cfg.nowY + cfg.nowM + 1 - (12 * st.year + st.month)) := by
  intro fuel
  induction fuel with
  | zero =>
    intro st h1 h2 h3
    rw [calc_rows]
    omega
  | succ n ih =>
    intro st h1 h2 h3
    rw [calc_rows]
    split
    · rename_i hbreak
      rw [break_loop, hf] at hbreak
      simp only [Bool.false_eq_true, if_false] at hbreak
      have := idx_of_after cfg st h1 hn2 hbreak
      omega
    · rename_i hbreak
      rw [break_loop, hf] at hbreak
      simp only [Bool.false_eq_true, if_false] at hbreak
      rw [Bool.not_eq_true] at hbreak
      have hle : 12 * st.year + st.month ≤ 12 * cfg.nowY + cfg.nowM := by
        by_contra hgt
        rw [after_this_month_of_idx cfg st h2 hn1 (by omega)] at hbreak
        simp at hbreak
      have hidx :
          12 * (increment { st with rows := st.rows ++ [calc_next_row cfg st] }).year +
              (increment { st with rows := st.rows ++ [calc_next_row cfg st] }).month =
            12 * st.year + st.month + 1 :=
        increment_idx _
      have hrange :=
        increment_month_range { st with rows := st.rows ++ [calc_next_row cfg st] } h2
      have hlen :
          (increment { st with rows := st.rows ++ [calc_next_row cfg st] }).rows.length =
            st.rows.length + 1 := by
        rw [increment_rows]
        simp
      rw [ih _ hrange.1 hrange.2 (by omega), hlen]
      omega

/-! ### Concrete scenarios -/

theorem runC2_rows : (run inpC2).rows =
    [⟨[("A", 100), ("B", 50)], 150, "Jan 2020"⟩,
     ⟨[("A", 0), ("B", 30)], 30, "Feb 2020"⟩,
     ⟨[("A", 0), ("B", 0)], 0, "Mar 2020"⟩] := by
  have hr1 : calc_next_row (mkConfig inpC2) ⟨[], 1, 2020⟩ =
      ⟨[("A", 100), ("B", 50)], 150, "Jan 2020"⟩ := by
    norm_num +decide [calc_next_row, rowPass, rowStep, calcBalFor, prevBalFor, mkConfig,
      filteredAccounts, sortedAccounts, orderByPriority, orderInsert,
      CreditLine.calc_balance, findStatement, CreditLine.forecast_next,
      CreditLine.min_pay, waterfall, updateCell, alookup, monthAbbr,
      latestStatement, laterOf, CreditLine.balance, after_this_month,
      availableBudget, min_def, max_def, abs, inpC2, accA, accB]
  have hr2 : calc_next_row (mkConfig inpC2)
      ⟨[⟨[("A", 100), ("B", 50)], 150, "Jan 2020"⟩], 2, 2020⟩ =
      ⟨[("A", 0), ("B", 30)], 30, "Feb 2020"⟩ := by
    norm_num +decide [calc_next_row, rowPass, rowStep, calcBalFor, prevBalFor, mkConfig,
      filteredAccounts, sortedAccounts, orderByPriority, orderInsert,
      CreditLine.calc_balance, findStatement, CreditLine.forecast_next,
      CreditLine.min_pay, waterfall, updateCell, alookup, monthAbbr,
      latestStatement, laterOf, CreditLine.balance, after_this_month,
      availableBudget, min_def, max_def, abs, inpC2, accA, accB]
  have hr3 : calc_next_row (mkConfig inpC2)
      ⟨[⟨[("A", 100), ("B", 50)], 150, "Jan 2020"⟩,
        ⟨[("A", 0), ("B", 30)], 30, "Feb 2020"⟩], 3, 2020⟩ =
      ⟨[("A", 0), ("B", 0)], 0, "Mar 2020"⟩ := by
    norm_num +decide [calc_next_row, rowPass, rowStep, calcBalFor, prevBalFor, mkConfig,
      filteredAccounts, sortedAccounts, orderByPriority, orderInsert,
      CreditLine.calc_balance, findStatement, CreditLine.forecast_next,
      CreditLine.min_pay, waterfall, updateCell, alookup, monthAbbr,
      latestStatement, laterOf, CreditLine.balance, after_this_month,
      availableBudget, min_def, max_def, abs, inpC2, accA, accB]
  rw [run_rows, show startState inpC2 = ⟨[], 1, 2020⟩ from by decide]
  rw [calc_rows_go _ _ _ (by decide) (by decide), hr1]
  rw [show increment { LoopState.mk [] 1 2020 with
        rows := [] ++ [Row.mk [("A", 100), ("B", 50)] 150 "Jan 2020"] } =
      ⟨[⟨[("A", 100), ("B", 50)], 150, "Jan 2020"⟩], 2, 2020⟩ from by decide]
  rw [calc_rows_go _ _ _ (by decide) (by decide), hr2]
  rw [show increment { LoopState.mk [Row.mk [("A", 100), ("B", 50)] 150 "Jan 2020"] 2 2020 with
        rows := [Row.mk [("A", 100), ("B", 50)] 150 "Jan 2020"] ++
          [Row.mk [("A", 0), ("B", 30)] 30 "Feb 2020"] } =
      ⟨[⟨[("A", 100), ("B", 50)], 150, "Jan 2020"⟩,
        ⟨[("A", 0), ("B", 30)], 30, "Feb 2020"⟩], 3, 2020⟩ from by decide]
  rw [calc_rows_go _ _ _ (by decide) (by decide), hr3]
  rw [show increment { LoopState.mk [Row.mk [("A", 100), ("B", 50)] 150 "Jan 2020",
        Row.mk [("A", 0), ("B", 30)] 30 "Feb 2020"] 3 2020 with
        rows := [Row.mk [("A", 100), ("B", 50)] 150 "Jan 2020",
          Row.mk [("A", 0), ("B", 30)] 30 "Feb 2020"] ++
          [Row.mk [("A", 0), ("B", 0)] 0 "Mar 2020"] } =
      ⟨[⟨[("A", 100), ("B", 50)], 150, "Jan 2020"⟩,
        ⟨[("A", 0), ("B", 30)], 30, "Feb 2020"⟩,
        ⟨[("A", 0), ("B", 0)], 0, "Mar 2020"⟩], 4, 2020⟩ from by decide]
  rw [calc_rows_done _ _ _ (by decide)]

/-- C2 counterexample: in the claim's exact scenario the first forecast
month (Feb 2020) ends with A = 0 and B = 30 — the walk zeroes the
priority-1 account A first — so the claimed outcome A = 30, B = 0 is
false. -/
theorem C2_waterfall_order_counterexample :
    alookup ((run inpC2).rows.getD 1 ⟨[], 0, ""⟩).cells "A" = some 0 ∧
    alookup ((run inpC2).rows.getD 1 ⟨[], 0, ""⟩).cells "B" = some 30 ∧
    ¬ (alookup ((run inpC2).rows.getD 1 ⟨[], 0, ""⟩).cells "A" = some 30 ∧
       alookup ((run inpC2).rows.getD 1 ⟨[], 0, ""⟩).cells "B" = some 0) := by
  rw [runC2_rows]
  refine ⟨by decide, by decide, by decide⟩

/-- C2 amended: in the scenario with A (priority 1, balance 100) and B
(priority 2, balance 50), zero rates and budget 120, the walk zeroes A
(the lowest priority value) first and reduces B by the remainder: the
Feb 2020 row is A = 0, B = 30, and the Mar 2020 row clears both. -/
theorem C2_waterfall_order_amended :
    (run inpC2).rows.get? 1 = some ⟨[("A", 0), ("B", 30)], 30, "Feb 2020"⟩ ∧
    (run inpC2).rows.get? 2 = some ⟨[("A", 0), ("B", 0)], 0, "Mar 2020"⟩ := by
  rw [runC2_rows]
  refine ⟨by decide, by decide⟩

theorem runC3_rows : (run inpC3).rows =
    [⟨[("A", 100)], 100, "Jan 2020"⟩,
     ⟨[("A", 90)], 90, "Feb 2020"⟩,
     ⟨[("A", 80)], 80, "Mar 2020"⟩] := by
  have hr1 : calc_next_row (mkConfig inpC3) ⟨[], 1, 2020⟩ =
      ⟨[("A", 100)], 100, "Jan 2020"⟩ := by
    norm_num +decide [calc_next_row, rowPass, rowStep, calcBalFor, prevBalFor, mkConfig,
      filteredAccounts, sortedAccounts, orderByPriority, orderInsert,
      CreditLine.calc_balance, findStatement, CreditLine.forecast_next,
      CreditLine.min_pay, waterfall, updateCell, alookup, monthAbbr,
      latestStatement, laterOf, CreditLine.balance, after_this_month,
      availableBudget, min_def, max_def, abs, inpC3, accD]
  have hr2 : calc_next_row (mkConfig inpC3)
      ⟨[⟨[("A", 100)], 100, "Jan 2020"⟩], 2, 2020⟩ =
      ⟨[("A", 90)], 90, "Feb 2020"⟩ := by
    norm_num +decide [calc_next_row, rowPass, rowStep, calcBalFor, prevBalFor, mkConfig,
      filteredAccounts, sortedAccounts, orderByPriority, orderInsert,
      CreditLine.calc_balance, findStatement, CreditLine.forecast_next,
      CreditLine.min_pay, waterfall, updateCell, alookup, monthAbbr,
      latestStatement, laterOf, CreditLine.balance, after_this_month,
      availableBudget, min_def, max_def, abs, inpC3, accD]
  have hr3 : calc_next_row (mkConfig inpC3)
      ⟨[⟨[("A", 100)], 100, "Jan 2020"⟩, ⟨[("A", 90)], 90, "Feb 2020"⟩], 3, 2020⟩ =
      ⟨[("A", 80)], 80, "Mar 2020"⟩ := by
    norm_num +decide [calc_next_row, rowPass, rowStep, calcBalFor, prevBalFor, mkConfig,
      filteredAccounts, sortedAccounts, orderByPriority, orderInsert,
      CreditLine.calc_balance, findStatement, CreditLine.forecast_next,
      CreditLine.min_pay, waterfall, updateCell, alookup, monthAbbr,
      latestStatement, laterOf, CreditLine.balance, after_this_month,
      availableBudget, min_def, max_def, abs, inpC3, accD]
  rw [run_rows, show startState inpC3 = ⟨[], 1, 2020⟩ from by decide]
  rw [calc_rows_go _ _ _ (by decide) (by decide), hr1]
  rw [show increment { LoopState.mk [] 1 2020 with
        rows := [] ++ [Row.mk [("A", 100)] 100 "Jan 2020"] } =
      ⟨[⟨[("A", 100)], 100, "Jan 2020"⟩], 2, 2020⟩ from by decide]
  rw [calc_rows_go _ _ _ (by decide) (by decide), hr2]
  rw [show increment { LoopState.mk [Row.mk [("A", 100)] 100 "Jan 2020"] 2 2020 with
        rows := [Row.mk [("A", 100)] 100 "Jan 2020"] ++ [Row.mk [("A", 90)] 90 "Feb 2020"] } =
      ⟨[⟨[("A", 100)], 100, "Jan 2020"⟩, ⟨[("A", 90)], 90, "Feb 2020"⟩], 3, 2020⟩ from by decide]
  rw [calc_rows_go _ _ _ (by decide) (by decide), hr3]
  rw [show increment { LoopState.mk [Row.mk [("A", 100)] 100 "Jan 2020",
        Row.mk [("A", 90)] 90 "Feb 2020"] 3 2020 with
        rows := [Row.mk [("A", 100)] 100 "Jan 2020", Row.mk [("A", 90)] 90 "Feb 2020"] ++
          [Row.mk [("A", 80)] 80 "Mar 2020"] } =
      ⟨[⟨[("A", 100)], 100, "Jan 2020"⟩, ⟨[("A", 90)], 90, "Feb 2020"⟩,
        ⟨[("A", 80)], 80, "Mar 2020"⟩], 4, 2020⟩ from by decide]
  rw [calc_rows_done _ _ _ (by decide)]

/-- C3 counterexample: in Feb 2020 (strictly before now = Mar 2020) the
only account is forecasting (minimum payment `some 10`) and
`available = |50| - 10 = 40 > 0`, yet the produced row keeps the plain
forecast balance 90 — no extra allocation happens, because the code also
requires the month to lie strictly after now. -/
theorem C3_waterfall_criterion_counterexample :
    (calcBalFor (mkConfig inpC3) ⟨[⟨[("A", 100)], 100, "Jan 2020"⟩], 2, 2020⟩ accD).2 =
        some 10 ∧
    availableBudget (mkConfig inpC3) ⟨[⟨[("A", 100)], 100, "Jan 2020"⟩], 2, 2020⟩ = 40 ∧
    (0 : ℚ) < 40 ∧
    (run inpC3).rows.get? 1 = some ⟨[("A", 90)], 90, "Feb 2020"⟩ ∧
    (calc_next_row (mkConfig inpC3) ⟨[⟨[("A", 100)], 100, "Jan 2020"⟩], 2, 2020⟩).cells =
      (rowPass (mkConfig inpC3) ⟨[⟨[("A", 100)], 100, "Jan 2020"⟩], 2, 2020⟩).1 := by
  refine ⟨?_, ?_, by norm_num, ?_, ?_⟩
  · norm_num +decide [calcBalFor, prevBalFor, mkConfig, filteredAccounts,
      sortedAccounts, orderByPriority, orderInsert, CreditLine.calc_balance,
      findStatement, CreditLine.min_pay, alookup, latestStatement, laterOf,
      CreditLine.balance, min_def, max_def, inpC3, accD]
  · norm_num +decide [availableBudget, rowPass, rowStep, calcBalFor, prevBalFor,
      mkConfig, filteredAccounts, sortedAccounts, orderByPriority, orderInsert,
      CreditLine.calc_balance, findStatement, CreditLine.forecast_next,
      CreditLine.min_pay, alookup, latestStatement, laterOf,
      CreditLine.balance, min_def, max_def, abs, inpC3, accD]
  · rw [runC3_rows]; decide
  · rw [calc_next_row_cells_eq, if_neg]
    intro hcond
    rw [Bool.and_eq_true] at hcond
    exact absurd hcond.1 (by decide)

/-- C3 amended: the extra-paydown allocation of a simulated month is
applied exactly when the month is strictly after now's (year, month) AND
every account returned a forecast minimum payment AND the available
budget (|debt_budget| minus those payments) is positive; in every other
case the row keeps the plain per-account balances. -/
theorem C3_waterfall_criterion_amended (inp : EngineInput) (st : LoopState) :
    (after_this_month (mkConfig inp) st = true →
      (∀ a ∈ (mkConfig inp).accs, ((calcBalFor (mkConfig inp) st a).2).isSome) →
      0 < availableBudget (mkConfig inp) st →
      (calc_next_row (mkConfig inp) st).cells =
        waterfall (availableBudget (mkConfig inp) st) (mkConfig inp).names
          (rowPass (mkConfig inp) st).1) ∧
    (after_this_month (mkConfig inp) st = false →
      (calc_next_row (mkConfig inp) st).cells = (rowPass (mkConfig inp) st).1) ∧
    (availableBudget (mkConfig inp) st ≤ 0 →
      (calc_next_row (mkConfig inp) st).cells = (rowPass (mkConfig inp) st).1) ∧
    (∀ a ∈ (mkConfig inp).accs, (calcBalFor (mkConfig inp) st a).2 = none →
      (calc_next_row (mkConfig inp) st).cells = (rowPass (mkConfig inp) st).1) := by
  refine ⟨?_, ?_, ?_, ?_⟩
  · intro hafter hall hb
    exact calc_next_row_cells_of_waterfall (mkConfig inp) st (mkConfig_names inp)
      hafter hall hb
  · intro hafter
    rw [calc_next_row_cells_eq, if_neg]
    intro hcond
    rw [Bool.and_eq_true] at hcond
    rw [hafter] at hcond
    exact Bool.false_ne_true hcond.1
  · exact calc_next_row_cells_of_nonpos (mkConfig inp) st
  · intro a ha hnone
    exact calc_next_row_cells_of_none (mkConfig inp) st (mkConfig_names inp) ha hnone

/-- Witness for C3: in the C3 scenario's Feb 2020 (before now), the
claim's amended criterion says no allocation: the row keeps the plain
balances. -/
theorem C3_waterfall_criterion_amended_witness :
    (calc_next_row (mkConfig inpC3) ⟨[⟨[("A", 100)], 100, "Jan 2020"⟩], 2, 2020⟩).cells =
      (rowPass (mkConfig inpC3) ⟨[⟨[("A", 100)], 100, "Jan 2020"⟩], 2, 2020⟩).1 :=
  (C3_waterfall_criterion_amended inpC3
    ⟨[⟨[("A", 100)], 100, "Jan 2020"⟩], 2, 2020⟩).2.1 (by decide)

theorem mkConfig_nowY (inp : EngineInput) : (mkConfig inp).nowY = inp.nowY := rfl

theorem mkConfig_nowM (inp : EngineInput) : (mkConfig inp).nowM = inp.nowM := rfl

theorem mkConfig_mode (inp : EngineInput) :
    (mkConfig inp).do_forecasting = inp.do_forecasting := rfl

theorem startState_month_range (inp : EngineInput)
    (hn1 : 1 ≤ inp.nowM) (hn2 : inp.nowM ≤ 12)
    (hs : ∀ a ∈ inp.accounts, ∀ s ∈ a.statements, 1 ≤ s.month ∧ s.month ≤ 12) :
    1 ≤ (startState inp).month ∧ (startState inp).month ≤ 12 := by
  rw [startState]
  cases hmd : minDate (startDates (mkConfig inp).accs) with
  | none => exact ⟨hn1, hn2⟩
  | some d =>
    have hd := minDate_mem hmd
    rw [startDates, List.mem_filterMap] at hd
    obtain ⟨a, ha, hed⟩ := hd
    rw [CreditLine.earliest_statement_date] at hed
    cases hes : earliestStatement a.statements with
    | none => rw [hes] at hed; simp at hed
    | some s =>
      rw [hes] at hed
      simp only [Option.map_some', Option.some_inj] at hed
      have hsmem := earliestStatement_mem hes
      have hrange := hs a (mem_filteredAccounts.mp (by rw [← mkConfig_accs]; exact ha)).1
        s hsmem
      rw [← hed]
      exact hrange

/-- C4 amended: the engine always exits through its own stopping
condition (for calendar-valid statement months and "now"), and the
120-row cap holds in forecasting mode; in historical mode the loop
instead stops once the simulated month passes now, producing one row per
month from the starting month, which can exceed 120. -/
theorem C4_termination (inp : EngineInput)
    (hn1 : 1 ≤ inp.nowM) (hn2 : inp.nowM ≤ 12)
    (hs : ∀ a ∈ inp.accounts, ∀ s ∈ a.statements, 1 ≤ s.month ∧ s.month ≤ 12) :
    (run inp).finished = true ∧
    (inp.do_forecasting = true → (run inp).rows.length ≤ MAX_ROWS) := by
  have hr := startState_month_range inp hn1 hn2 hs
  constructor
  · rw [run_finished]
    cases hdf : inp.do_forecasting with
    | false =>
      refine calc_rows_break_hist (mkConfig inp) hdf hn1 (fuelFor inp) (startState inp)
        hr.2 ?_
      rw [mkConfig_nowY, mkConfig_nowM, fuelFor, MAX_ROWS]
      omega
    | true =>
      refine calc_rows_break_fore (mkConfig inp) hdf (fuelFor inp) (startState inp) ?_
      rw [startState_rows, fuelFor, MAX_ROWS]
      simp
  · intro hdf
    rw [run_rows]
    refine calc_rows_length_fore (mkConfig inp) hdf (fuelFor inp) (startState inp) ?_
    rw [startState_rows]
    simp [MAX_ROWS]

/-- Witness for C4 at the two-account forecasting scenario. -/
theorem C4_termination_witness :
    (run inpC2).finished = true ∧
    (inpC2.do_forecasting = true → (run inpC2).rows.length ≤ MAX_ROWS) :=
  C4_termination inpC2 (by decide) (by decide) (by decide)

/-- C4 counterexample: in historical mode the run emits one row per month
from Jan 2010 through Jan 2021 — 133 rows, exceeding the claimed cap of
120. -/
theorem C4_termination_counterexample :
    (run inpC4).rows.length = 133 ∧ ¬ ((run inpC4).rows.length ≤ MAX_ROWS) := by
  have hlen : (run inpC4).rows.length = 133 := by
    rw [run_rows, show startState inpC4 = ⟨[], 1, 2010⟩ from by decide]
    have h := calc_rows_length_hist (mkConfig inpC4) rfl (by decide) (by decide)
      (fuelFor inpC4) ⟨[], 1, 2010⟩ (by decide) (by decide) (by decide)
    rw [h]
    decide
  exact ⟨hlen, by rw [hlen]; decide⟩

theorem Row_eq_of (r : Row) (c : List (String × ℚ)) (t : ℚ) (l : String)
    (h1 : r.cells = c) (h2 : r.total = t) (h3 : r.label = l) : r = ⟨c, t, l⟩ := by
  cases r
  simp_all

theorem after_increment_now (cfg : Config) (st : LoopState)
    (hm : st.month = cfg.nowM) (hy : st.year = cfg.nowY) :
    after_this_month cfg (increment st) = true := by
  rw [increment]
  split <;> rename_i h <;> rw [after_this_month] <;>
    simp only [Bool.or_eq_true, Bool.and_eq_true, decide_eq_true_eq, gt_iff_lt] <;>
    omega

theorem run_no_statements (inp : EngineInput)
    (h : ∀ a ∈ inp.accounts, a.statements = []) :
    (run inp).rows = [⟨[], 0, monthAbbr inp.nowM ++ " " ++ toString inp.nowY⟩] ∧
    (run inp).warnings =
      budgetWarnings inp ++ ["No statement data for debt summary table"] := by
  have haccs : (mkConfig inp).accs = [] := by
    rw [mkConfig_accs]
    refine List.eq_nil_iff_forall_not_mem.mpr ?_
    intro a ha
    have hm := mem_filteredAccounts.mp ha
    exact hm.2.2 (h a hm.1)
  have hmd : minDate (startDates (mkConfig inp).accs) = none := by
    rw [haccs]
    rfl
  have hss : startState inp = ⟨[], inp.nowM, inp.nowY⟩ := by
    rw [startState, hmd]
  have hwarn : startWarnings inp = ["No statement data for debt summary table"] := by
    rw [startWarnings, hmd]
  have hplain : (rowPass (mkConfig inp) ⟨[], inp.nowM, inp.nowY⟩).1 = [] := by
    rw [rowPass_fst, haccs]
    rfl
  have hcells : (calc_next_row (mkConfig inp) ⟨[], inp.nowM, inp.nowY⟩).cells = [] := by
    rw [calc_next_row_cells_eq, hplain, mkConfig_names inp, haccs]
    split
    · split
      · rw [List.map_nil, waterfall]
      · rfl
    · rfl
  have hrow : calc_next_row (mkConfig inp) ⟨[], inp.nowM, inp.nowY⟩ =
      ⟨[], 0, monthAbbr inp.nowM ++ " " ++ toString inp.nowY⟩ :=
    Row_eq_of _ _ _ _ hcells
      (by rw [calc_next_row_total_eq, hcells]; rfl)
      (calc_next_row_label_eq _ _)
  obtain ⟨k, hk⟩ : ∃ k, fuelFor inp = k + 1 :=
    ⟨12 * inp.nowY + inp.nowM + 1 + MAX_ROWS, rfl⟩
  have hb0 : break_loop (mkConfig inp) ⟨[], inp.nowM, inp.nowY⟩ = false := by
    rw [break_loop]
    split
    · rfl
    · simp [after_this_month, mkConfig_nowY, mkConfig_nowM]
  have hb1 : break_loop (mkConfig inp)
      (increment ⟨[⟨[], 0, monthAbbr inp.nowM ++ " " ++ toString inp.nowY⟩],
        inp.nowM, inp.nowY⟩) = true := by
    rw [break_loop]
    split
    · rw [increment_rows]
      simp
    · exact after_increment_now (mkConfig inp) _ rfl rfl
  constructor
  · rw [run_rows, hss, hk]
    rw [calc_rows_go _ _ _ hb0 (by omega)]
    rw [hrow]
    rw [show increment { LoopState.mk [] inp.nowM inp.nowY with
          rows := [] ++ [Row.mk [] 0 (monthAbbr inp.nowM ++ " " ++ toString inp.nowY)] } =
        increment ⟨[⟨[], 0, monthAbbr inp.nowM ++ " " ++ toString inp.nowY⟩],
          inp.nowM, inp.nowY⟩ from rfl]
    rw [calc_rows_done _ _ _ hb1, increment_rows]
  · rw [run_warnings, hwarn]

/-- C5 amended: when no account has any statement history, the engine
warns "No statement data for debt summary table", but its output is not
empty: it emits exactly one degenerate row for the current month, with
no account columns and Total 0. -/
theorem C5_no_statement_data (inp : EngineInput)
    (h : ∀ a ∈ inp.accounts, a.statements = []) :
    (run inp).rows = [⟨[], 0, monthAbbr inp.nowM ++ " " ++ toString inp.nowY⟩] ∧
    "No statement data for debt summary table" ∈ (run inp).warnings := by
  obtain ⟨h1, h2⟩ := run_no_statements inp h
  refine ⟨h1, ?_⟩
  rw [h2]
  simp

/-- C5 counterexample: with no statement history anywhere the run still
produces a (single) row, so the claimed empty rows list is false, even
though the claimed warning is present. -/
theorem C5_no_statement_data_counterexample :
    (run inpC5).rows ≠ [] ∧
    "No statement data for debt summary table" ∈ (run inpC5).warnings := by
  obtain ⟨h1, h2⟩ := run_no_statements inpC5 (by decide)
  constructor
  · rw [h1]
    simp
  · rw [h2]
    simp

/-- Witness for C5 at the concrete statement-less scenario. -/
theorem C5_no_statement_data_witness :
    (run inpC5).rows = [⟨[], 0, monthAbbr inpC5.nowM ++ " " ++ toString inpC5.nowY⟩] ∧
    "No statement data for debt summary table" ∈ (run inpC5).warnings :=
  C5_no_statement_data inpC5 (by decide)

/-- C8 amended: the "No debt budget specified" warning is emitted exactly
when no debt budget record exists; a present record — even with value
0 — yields debt_budget |value| with no warning. With forecasting on the
run always yields at least one row, and in any month whose forecast
minimum payments are nonnegative a zero debt budget applies no waterfall
allocation (the row keeps the plain per-account balances, with interest
and minimum payments already applied by `calc_balance`). -/
theorem C8_zero_budget_behavior :
    (∀ inp : EngineInput, inp.budget = none →
        "No debt budget specified" ∈ (run inp).warnings ∧
        (mkConfig inp).debt_budget = 0) ∧
    (∀ (inp : EngineInput) (v : ℚ), inp.budget = some v →
        "No debt budget specified" ∉ (run inp).warnings ∧
        (v = 0 → (mkConfig inp).debt_budget = 0)) ∧
    (∀ inp : EngineInput, inp.do_forecasting = true → (run inp).rows ≠ []) ∧
    (∀ (inp : EngineInput) (st : LoopState), (mkConfig inp).debt_budget = 0 →
        (∀ a ∈ (mkConfig inp).accs,
          0 ≤ a.min_pay_dlr ∧ 0 ≤ prevBalFor (mkConfig inp) st a) →
        (calc_next_row (mkConfig inp) st).cells = (rowPass (mkConfig inp) st).1) := by
  have hdb : ∀ inp : EngineInput, (mkConfig inp).debt_budget =
      (match inp.budget with | some v => |v| | none => 0) := fun _ => rfl
  refine ⟨?_, ?_, ?_, ?_⟩
  · intro inp hb
    constructor
    · rw [run_warnings, budgetWarnings, hb]
      simp
    · rw [hdb, hb]
  · intro inp v hb
    constructor
    · intro hmem
      rw [run_warnings, budgetWarnings, hb] at hmem
      rw [List.nil_append, startWarnings] at hmem
      rcases hmd : minDate (startDates (mkConfig inp).accs) with - | d <;> rw [hmd] at hmem
      · simp at hmem
      · simp at hmem
    · intro hv
      rw [hdb, hb, hv]
      exact abs_zero
  · intro inp hdf
    rw [run_rows]
    obtain ⟨k, hk⟩ : ∃ k, fuelFor inp = k + 1 :=
      ⟨12 * inp.nowY + inp.nowM + 1 + MAX_ROWS, rfl⟩
    have hb0 : break_loop (mkConfig inp) (startState inp) = false := by
      rw [break_loop, mkConfig_mode, hdf]
      rw [if_pos rfl, startState_rows]
      rfl
    rw [hk, calc_rows_go _ _ _ hb0 (by omega)]
    have hmono := calc_rows_length_mono (mkConfig inp) (k + 1 - 1)
      (increment { startState inp with
        rows := (startState inp).rows ++ [calc_next_row (mkConfig inp) (startState inp)] })
    rw [increment_rows] at hmono
    simp only [List.length_append, List.length_singleton] at hmono
    intro hnil
    rw [hnil] at hmono
    simp at hmono
  · intro inp st hzero hnn
    apply calc_next_row_cells_of_nonpos
    rw [availableBudget, hzero]
    have hsum : 0 ≤ ((rowPass (mkConfig inp) st).2.map Prod.snd).sum := by
      apply List.sum_nonneg
      intro x hx
      rw [List.mem_map] at hx
      obtain ⟨q, hq, rfl⟩ := hx
      obtain ⟨a, ha, hsome⟩ := rowPass_snd_mem _ _ hq
      rw [(calcBalFor_snd_some hsome).2]
      exact min_pay_nonneg a _ (hnn a ha).1 (hnn a ha).2
    linarith

/-- C8 counterexample: with a budget record present with value 0 and
statement history available, the run emits no "No debt budget specified"
warning (contrary to the claim), although rows are produced. -/
theorem C8_zero_budget_counterexample :
    "No debt budget specified" ∉ (run inpC8).warnings ∧
    (run inpC8).warnings = [] := by
  have hw : (run inpC8).warnings = [] := by
    rw [run_warnings]
    rw [show budgetWarnings inpC8 = [] from rfl]
    rw [show startWarnings inpC8 = [] from by decide]
    rfl
  rw [hw]
  simp

/-- Witness for C8: the missing-record warning fires, a present zero
record does not warn but zeroes the budget, forecasting yields rows, and
the zero budget applies no allocation in a concrete forecast month. -/
theorem C8_zero_budget_behavior_witness :
    ("No debt budget specified" ∈ (run ⟨[accD], none, 2020, 3, true⟩).warnings ∧
      (mkConfig ⟨[accD], none, 2020, 3, true⟩).debt_budget = 0) ∧
    ("No debt budget specified" ∉ (run inpC8).warnings) ∧
    ((mkConfig inpC8).debt_budget = 0) ∧
    ((run inpC8).rows ≠ []) ∧
    ((calc_next_row (mkConfig inpC8) ⟨[⟨[("A", 100)], 100, "Jan 2020"⟩], 2, 2020⟩).cells =
      (rowPass (mkConfig inpC8) ⟨[⟨[("A", 100)], 100, "Jan 2020"⟩], 2, 2020⟩).1) := by
  have hz : (mkConfig inpC8).debt_budget = 0 := by
    show |(0 : ℚ)| = 0
    exact abs_zero
  refine ⟨C8_zero_budget_behavior.1 ⟨[accD], none, 2020, 3, true⟩ rfl,
    (C8_zero_budget_behavior.2.1 inpC8 0 rfl).1, hz,
    C8_zero_budget_behavior.2.2.1 inpC8 rfl,
    C8_zero_budget_behavior.2.2.2 inpC8 ⟨[⟨[("A", 100)], 100, "Jan 2020"⟩], 2, 2020⟩ hz ?_⟩
  intro a ha
  rw [show (mkConfig inpC8).accs = [accD] from by decide] at ha
  rw [List.mem_singleton] at ha
  subst ha
  constructor
  · norm_num [accD]
  · norm_num +decide [prevBalFor, alookup, accD]

/-- C10: every account column of every produced row belongs to an account
from the input that has a positive credit line and at least one
statement; moreover every simulated account's cached starting balance is
its latest statement's balance, never the credit_line fallback. -/
theorem C10_columns_have_statements (inp : EngineInput) :
    (∀ r ∈ (run inp).rows, ∀ q ∈ r.cells,
        ∃ a, a ∈ inp.accounts ∧ a.name = q.1 ∧ a.statements ≠ [] ∧
          0 < a.credit_line) ∧
    (∀ a ∈ (mkConfig inp).accs,
        ∃ L, latestStatement a.statements = some L ∧ a.balance = L.balance) := by
  constructor
  · intro r hr q hq
    have hstep : ∀ st : LoopState,
        (∀ r2 ∈ st.rows, ∀ q2 ∈ r2.cells,
          q2.1 ∈ (mkConfig inp).accs.map CreditLine.name) →
        ∀ q2 ∈ (calc_next_row (mkConfig inp) st).cells,
          q2.1 ∈ (mkConfig inp).accs.map CreditLine.name := by
      intro st _ q2 hq2
      rw [← calc_next_row_keys (mkConfig inp) st]
      exact List.mem_map_of_mem Prod.fst hq2
    have hinit : ∀ r2 ∈ (startState inp).rows, ∀ q2 ∈ r2.cells,
        q2.1 ∈ (mkConfig inp).accs.map CreditLine.name := by
      rw [startState_rows]
      intro r2 hr2
      simp at hr2
    have hinv := calc_rows_invariant (mkConfig inp)
      (fun r2 => ∀ q2 ∈ r2.cells, q2.1 ∈ (mkConfig inp).accs.map CreditLine.name)
      hstep (fuelFor inp) (startState inp) hinit r
      (by rw [← run_rows]; exact hr) q hq
    rw [List.mem_map] at hinv
    obtain ⟨a, ha, hname⟩ := hinv
    obtain ⟨hmem, hcl, hne⟩ := mem_filteredAccounts.mp (by rw [← mkConfig_accs]; exact ha)
    exact ⟨a, hmem, hname, hne, hcl⟩
  · intro a ha
    obtain ⟨-, -, hne⟩ := mem_filteredAccounts.mp (by rw [← mkConfig_accs]; exact ha)
    obtain ⟨L, hL⟩ := Option.isSome_iff_exists.mp (latestStatement_isSome hne)
    refine ⟨L, hL, ?_⟩
    rw [CreditLine.balance, hL]

/-- Witness for C10 at the two-account scenario: the Jan 2020 row's "A"
column comes from a statement-bearing account with a positive credit
line, and account A's starting balance is its latest statement's. -/
theorem C10_columns_have_statements_witness :
    (∃ a, a ∈ inpC2.accounts ∧ a.name = "A" ∧ a.statements ≠ [] ∧
      0 < a.credit_line) ∧
    (∃ L, latestStatement accA.statements = some L ∧ accA.balance = L.balance) := by
  constructor
  · have h := (C10_columns_have_statements inpC2).1
      ⟨[("A", 100), ("B", 50)], 150, "Jan 2020"⟩
      (by rw [runC2_rows]; decide) ("A", 100) (by decide)
    exact h
  · exact (C10_columns_have_statements inpC2).2 accA (by decide)
